import Mathlib

/-!
Verification of the CorpusCompass dataset-generation engine
(`src/dataset_creator/DCThread.py`, function `generate_dataset` and class
`DCThread`) against its natural-language specification.

Python strings are modelled as lists of characters (`Str`), Python dicts as
insertion-ordered association lists (`PyDict`), and the engine's cooperative
cancellation (a `threading.Event` polled at loop boundaries) as a monad `M`
that threads a poll counter and records every observed flag value.  Fallible
Python operations (`KeyError`, `IndexError`, `ValueError`,
`ZeroDivisionError`, `AttributeError`) are modelled with an error result in
`M`, mirroring the `try/except` in `DCThread.run`.

The helper functions that `DCThread.py` imports from
`src/dataset_creator/dc_utils.py` and `src/common` (`preprocess_corpus`,
`get_name`, `check_correct_annotations`, `find_repetitions`,
`remove_features`, `get_ngram`, and the `QTextLogger` collaborator) are not
part of the sources under verification; they are treated as abstract
primitives, with concrete instances modelled from the specification for use
in witnesses and counterexamples.
-/

/-- Characters of a Python string. -/
abbrev Str := List Char

/-- Conversion from a Lean string literal to the `Str` model. -/
def str (s : String) : Str := s.data

/-- Whitespace test used by the string helpers (space, newline, tab, CR). -/
def isSpaceChar (c : Char) : Bool :=
  c = ' ' || c = '\n' || c = '\t' || c = '\r'

/-- Splitting on a separator character, Python `s.split(sep)` semantics:
the result is always nonempty and keeps empty fields. -/
def splitOnChar (sep : Char) : Str → List Str
  | [] => [[]]
  | c :: rest =>
    if c = sep then
      [] :: splitOnChar sep rest
    else
      match splitOnChar sep rest with
      | [] => [[c]]
      | h :: t => (c :: h) :: t

/-- Joining with a separator character, Python `sep.join(xs)` semantics. -/
def joinSep (sep : Char) : List Str → Str
  | [] => []
  | [x] => x
  | x :: y :: t => x ++ sep :: joinSep sep (y :: t)

/-- Last element of a split, Python `s.split(sep)[-1]`. -/
def lastField (sep : Char) (s : Str) : Str :=
  (splitOnChar sep s).getLastD []

/-- Splitting at the last separator occurrence, Python `s.rsplit(sep, 1)`:
a one-element list when the separator is absent, otherwise two pieces. -/
def rsplitOnce (sep : Char) (s : Str) : List Str :=
  let parts := splitOnChar sep s
  match parts with
  | [] => [s]
  | [_] => [s]
  | _ => [joinSep sep (parts.dropLast), parts.getLastD []]

/-- Removal of all square brackets, Python `x.replace("[","").replace("]","")`. -/
def removeBrackets (s : Str) : Str :=
  s.filter (fun c => ¬ (c = '[' || c = ']'))

/-- Leading-edge strip of one character class. -/
def dropLeading (p : Char → Bool) : Str → Str
  | [] => []
  | c :: t => if p c then dropLeading p t else c :: t

/-- Python `s.strip()`: whitespace removed from both ends. -/
def stripWs (s : Str) : Str :=
  ((dropLeading isSpaceChar ((dropLeading isSpaceChar s.reverse)).reverse))

/-- Python `s.strip(",")`: the given character removed from both ends. -/
def stripCommas (s : Str) : Str :=
  ((dropLeading (fun c => c = ',') ((dropLeading (fun c => c = ',') s.reverse)).reverse))

/-- Boolean membership of a string in a list of strings. -/
def elemStr (x : Str) : List Str → Bool
  | [] => false
  | y :: t => if y = x then true else elemStr x t

/-- Substring test, Python `needle in hay` on strings. -/
def isSubstr (needle hay : Str) : Bool :=
  match hay with
  | [] => needle.isEmpty
  | _ :: t => needle.isPrefixOf hay || isSubstr needle t

/-- First index of a string in a list, Python `lst.index(x)` result. -/
def firstIdx : List Str → Str → Option Nat
  | [], _ => none
  | k :: t, x => if k = x then some 0 else (firstIdx t x).map (· + 1)

/-- First-occurrence removal, Python `lst.remove(x)` effect on the list. -/
def eraseFirst : List Str → Str → List Str
  | [], _ => []
  | y :: t, x => if y = x then t else y :: eraseFirst t x

/-- Keep-first deduplication of a list of strings. -/
def dedupStr (l : List Str) : List Str :=
  l.foldl (fun acc x => if elemStr x acc then acc else acc ++ [x]) []

/-- Lexicographic comparison of strings by character code (Python `<`). -/
def strLtb : Str → Str → Bool
  | [], [] => false
  | [], _ :: _ => true
  | _ :: _, [] => false
  | a :: s, b :: t =>
    if a.val < b.val then true
    else if b.val < a.val then false
    else strLtb s t

/-- Insertion into a list sorted by `strLtb`. -/
def sortedInsert (x : Str) : List Str → List Str
  | [] => [x]
  | y :: t => if strLtb x y then x :: y :: t else y :: sortedInsert x t

/-- Insertion sort of strings, Python `sorted` on distinct strings. -/
def sortStrs : List Str → List Str
  | [] => []
  | x :: t => sortedInsert x (sortStrs t)

/-- Words of a string with their character start positions (maximal
whitespace-free runs). -/
def wordsWithPosAux : Str → Nat → Nat → Str → List (Nat × Str)
  | [], _, start, cur =>
    if cur.isEmpty then [] else [(start, cur.reverse)]
  | c :: rest, i, start, cur =>
    if isSpaceChar c then
      (if cur.isEmpty then [] else [(start, cur.reverse)]) ++
        wordsWithPosAux rest (i + 1) (i + 1) []
    else
      wordsWithPosAux rest (i + 1) (if cur.isEmpty then i else start) (c :: cur)

/-- Words of a string with positions. -/
def wordsWithPos (s : Str) : List (Nat × Str) :=
  wordsWithPosAux s 0 0 []

/-- Words of a string. -/
def wordsOf (s : Str) : List Str :=
  (wordsWithPos s).map (·.2)

/-- Decimal rendering of a natural number as a `Str`. -/
def natToStr (n : Nat) : Str := Nat.toDigits 10 n

section PyDictModel

variable {α β : Type}

/-- Insertion-ordered association list modelling a Python `dict`. -/
abbrev PyDict (α : Type) := List (Str × α)

/-- Lookup, Python `d[k]` as an `Option` (first matching key). -/
def pyGet? : PyDict α → Str → Option α
  | [], _ => none
  | (k, v) :: t, x => if k = x then some v else pyGet? t x

/-- Lookup with default, Python `d.get(k, dflt)`. -/
def pyGetD (d : PyDict α) (x : Str) (dflt : α) : α :=
  (pyGet? d x).getD dflt

/-- Membership test, Python `k in d`. -/
def pyContains (d : PyDict α) (x : Str) : Bool :=
  (pyGet? d x).isSome

/-- Update-or-append, Python `d[k] = v`: an existing key keeps its position,
a new key is appended. -/
def pyInsert : PyDict α → Str → α → PyDict α
  | [], x, v => [(x, v)]
  | (k, w) :: t, x, v =>
    if k = x then (k, v) :: t else (k, w) :: pyInsert t x v

/-- Key list of a dict in insertion order. -/
def keysOf (d : PyDict α) : List Str := d.map (·.1)

/-- Merge, Python `{**a, **b}`: entries of `b` inserted into `a` in order. -/
def pyMerge (a b : PyDict α) : PyDict α :=
  b.foldl (fun acc kv => pyInsert acc kv.1 kv.2) a

/-- Key effect of a single insertion. -/
def insKey : List Str → Str → List Str
  | [], x => [x]
  | k :: t, x => if k = x then k :: t else k :: insKey t x

end PyDictModel

section CancellationMonad

/-- State threaded through a run: the caller's stop flag as a function of
the poll counter, the number of polls made so far, and the record of every
observed flag value. -/
structure PollSt where
  flag : Nat → Bool
  count : Nat
  obs : List Bool

/-- Result of a run stage: the cancellation sentinel (the source's
`return None`), a raised Python exception, or a value. -/
inductive MRes (α : Type) where
  | cancelled : MRes α
  | err : Str → MRes α
  | ok : α → MRes α
deriving DecidableEq

/-- Computation threading the cancellation state. -/
def M (α : Type) : Type := PollSt → MRes α × PollSt

/-- Pure result. -/
def M.pure (a : α) : M α := fun s => (.ok a, s)

/-- Sequencing with short-circuit on cancellation and errors. -/
def M.bind (m : M α) (f : α → M β) : M β := fun s =>
  match m s with
  | (.ok a, s') => f a s'
  | (.cancelled, s') => (.cancelled, s')
  | (.err e, s') => (.err e, s')

/-- Raised exception. -/
def M.fail {α : Type} (e : Str) : M α := fun s => (.err e, s)

/-- One cancellation checkpoint: reads the flag at the current poll index,
records the observation, and cancels when the flag is set (the source's
`if stop_flag.is_set(): return None`). -/
def M.poll : M Unit := fun s =>
  let b := s.flag s.count
  (if b then .cancelled else .ok (),
   { flag := s.flag, count := s.count + 1, obs := s.obs ++ [b] })

/-- Lift of an optional value, erring like the named Python exception. -/
def M.liftO (o : Option α) (e : Str) : M α := fun s =>
  (match o with
   | some a => .ok a
   | none => .err e, s)

/-- Lift of an `Except` value. -/
def M.liftE (x : Except Str α) : M α := fun s =>
  (match x with
   | .ok a => .ok a
   | .error e => .err e, s)

end CancellationMonad

section GenericListHelpers

variable {α : Type}

/-- Safe positional lookup. -/
def nth? : List α → Nat → Option α
  | [], _ => none
  | a :: _, 0 => some a
  | _ :: t, n + 1 => nth? t n

/-- Positional lookup with default. -/
def nthD (l : List α) (i : Nat) (dflt : α) : α :=
  (nth? l i).getD dflt

/-- In-place positional update (identity when out of range), Python
`lst[i] = v` on an index known to be in range. -/
def setAt : List α → Nat → α → List α
  | [], _, _ => []
  | _ :: t, 0, v => v :: t
  | a :: t, n + 1, v => a :: setAt t n v

/-- Python list indexing with negative-index semantics: `lst[i]` counts
from the end when `i < 0`, and is out of range below `-len`. -/
def pyListGet (l : List α) (i : Int) : Option α :=
  if i < 0 then
    let j := (l.length : Int) + i
    if j < 0 then none else nth? l j.toNat
  else nth? l i.toNat

/-- Maximum of a list of naturals, Python `max(lst)` as an `Option`. -/
def maxNat? : List Nat → Option Nat
  | [] => none
  | x :: t => some (t.foldl Nat.max x)

end GenericListHelpers

/-- Boolean equality of the string model. -/
def beqStr (a b : Str) : Bool := if a = b then true else false

/-- Result of one `find_repetitions` call: wild (plain-text) occurrence
count, wild occurrences restricted to speakers of interest, annotated
(tag-wrapped) occurrence count, and the unannotated-occurrence context
snippets returned when `check_annotated=False`. -/
structure Reps where
  wild : Nat
  wildInterest : Nat
  ann : Nat
  wna : List Str
deriving DecidableEq

/-- Regex match of the feature-tag pattern: start offset, full match text
(`group(0)`) and first capture (`group(1)`). -/
structure FeatMatch where
  start : Nat
  group0 : Str
  group1 : Str
deriving DecidableEq

/-- Modelled from the spec: the helper functions that `DCThread.py` imports
from `src/dataset_creator/dc_utils.py` are not among the sources, so they
are abstract inputs here, each field modelling the function of the same
name as the specification describes it (sections 4.1 CorpusPreprocessor,
4.2 AnnotationValidator, 4.3 RepetitionCounter, 4.5 DatasetBuilder
helpers).  The compiled regexes and the logger they receive in Python are
absorbed into the functions. -/
structure Primitives where
  /-- Per-file normalization into an ordered paragraph list (spec 4.1):
  arguments are the raw text and the file identifier. -/
  preprocessCorpus : Str → Str → List Str
  /-- Speaker-name extraction from one paragraph, empty when absent. -/
  getName : Str → Str
  /-- All feature-tag pattern matches of a text, in order. -/
  featFinditer : Str → List FeatMatch
  /-- Structural validation (spec 4.2): keeps the well-formed annotation
  texts and returns a per-file diagnostic message; arguments are the
  matches, the file text, and the file identifier. -/
  checkCorrectAnns : List FeatMatch → Str → Str → List Str × Str
  /-- Repetition counting (spec 4.3): span, token text, speakers of
  interest, and the `check_annotated` flag. -/
  findRepetitions : Str → Str → List Str → Bool → Reps
  /-- Exclusion-span stripping (spec 4.5): clean text plus the list of
  wrong tag fragments found inside exclusion spans. -/
  removeFeatures : Str → Str × List Str
  /-- Bounded n-gram context around a match: paragraph, window sizes
  (previous, next), and the match's character offset. -/
  getNgram : Str → Nat → Nat → Nat → Str

/-- Collapse of runs of non-newline whitespace into single spaces. -/
def collapseSp (s : Str) : Str :=
  s.foldr
    (fun c acc =>
      if c = ' ' || c = '\t' || c = '\r' then
        match acc with
        | a :: _ => if a = ' ' then acc else ' ' :: acc
        | [] => ' ' :: acc
      else c :: acc)
    []

/-- Modelled from the spec (name regex): the speaker name of a paragraph is
the text before its first colon, empty when no colon is present. -/
def specGetName (p : Str) : Str :=
  match splitOnChar ':' p with
  | [_] => []
  | h :: _ => h
  | [] => []

/-- Modelled from the spec (4.1 `preprocess_corpus`): normalize whitespace,
split into paragraphs, drop paragraphs whose speaker cannot be identified. -/
def specPreprocess (raw : Str) (_key : Str) : List Str :=
  ((splitOnChar '\n' raw).map collapseSp).filter
    (fun p => ¬ (specGetName p).isEmpty)

/-- Modelled from the spec (feature-tag grammar): a tag match is a
whitespace-free word containing a dot; `group(0)` and `group(1)` coincide. -/
def specFeatFinditer (s : Str) : List FeatMatch :=
  (wordsWithPos s).filterMap
    (fun iw => if iw.2.any (fun c => c = '.') then some ⟨iw.1, iw.2, iw.2⟩ else none)

/-- Bracket balance used by the modelled validator. -/
def bracketBalanced (s : Str) : Bool :=
  if (s.filter (fun c => c = '[')).length = (s.filter (fun c => c = ']')).length
  then true else false

/-- Modelled from the spec (4.2 `check_correct_annotations`): a match is
valid iff its brackets balance; invalid matches are dropped and aggregated
into a per-file diagnostic message. -/
def specCheckAnns (ms : List FeatMatch) (_crp : Str) (pt : Str) :
    List Str × Str :=
  let good := ms.filter (fun m => bracketBalanced m.group0)
  let bad := ms.filter (fun m => ¬ bracketBalanced m.group0)
  (good.map (·.group0),
   if bad.isEmpty then [] else str "invalid annotations in file " ++ pt)

/-- Wild (unannotated) occurrences of a token among the words of a line:
words equal to the token that are not in tag form. -/
def wildInLine (token l : Str) : Nat :=
  ((wordsOf l).filter
    (fun w => (¬ w.any (fun c => c = '.')) && beqStr w token)).length

/-- Annotated occurrences of a token among the words of a line: tag-form
words whose bracket-stripped terminal component equals the token. -/
def annInLine (token l : Str) : Nat :=
  ((wordsOf l).filter
    (fun w => w.any (fun c => c = '.') &&
              beqStr (removeBrackets (lastField '.' w)) token)).length

/-- Modelled from the spec (4.3 `find_repetitions`): scans the span
line by line for wild and tag-wrapped occurrences of the token's literal
text; wild occurrences in speaker-of-interest lines are counted
separately, and when `check_annotated` is false the enclosing line is
returned as the context snippet of each unannotated occurrence. -/
def specFindReps (span token : Str) (soi : List Str) (checkAnn : Bool) :
    Reps :=
  let lines := splitOnChar '\n' span
  let wild := (lines.map (wildInLine token)).sum
  let ann := (lines.map (annInLine token)).sum
  let interestLines := lines.filter (fun l => elemStr (specGetName l) soi)
  let wildInterest := (interestLines.map (wildInLine token)).sum
  let wna :=
    if checkAnn then []
    else (lines.map (fun l => List.replicate (wildInLine token l) l)).join
  ⟨wild, wildInterest, ann, wna⟩

/-- Modelled from the spec (4.5 `remove_features`): exclusion-span markers
are stripped; no wrong tag fragments are reported by this simple grammar. -/
def specRemoveFeatures (c : Str) : Str × List Str :=
  (removeBrackets c, [])

/-- Modelled from the spec (n-gram context): the bounded window of words
before and after the match offset, joined with spaces. -/
def specGetNgram (c : Str) (prevN nextN idx : Nat) : Str :=
  let ws := wordsWithPos c
  let before := (ws.filter (fun iw => iw.1 < idx)).map (·.2)
  let after := (ws.filter (fun iw => ¬ iw.1 < idx)).map (·.2)
  joinSep ' ' ((before.reverse.take prevN).reverse ++ after.take (nextN + 1))

/-- Concrete primitive instance assembled from the spec-modelled helpers,
used to run the engine on concrete corpora. -/
def specPrims : Primitives :=
  ⟨specPreprocess, specGetName, specFeatFinditer, specCheckAnns,
   specFindReps, specRemoveFeatures, specGetNgram⟩

/-- Inputs of `generate_dataset`: the corpus, the three variable
dictionaries, and the unpacked run options (the regexes live inside the
primitives). -/
structure GenInputs where
  corpusDict : PyDict Str
  speakersVariables : PyDict (List Str)
  independentVariables : PyDict (List Str)
  dependentVariables : PyDict (List Str)
  previousLine : Bool
  ngramPrev : Nat
  ngramNext : Nat

/-- Cell of a tabular artifact: a string or an integer count. -/
inductive Cell where
  | s : Str → Cell
  | n : Int → Cell
deriving DecidableEq

/-- String-valued data frame (header plus rows). -/
structure DFStr where
  header : List Str
  rows : List (List Str)
deriving DecidableEq

/-- Mixed-cell data frame (header plus rows). -/
structure DFCell where
  header : List Str
  rows : List (List Cell)
deriving DecidableEq

/-- The bundle a completed run returns: row dataset, per-token statistics
table, missing-annotation table, one-hot encoded dataset. -/
structure GenOutput where
  dataset : DFStr
  annotationInfo : DFCell
  missedAnnotations : DFStr
  binaryDataset : DFCell
deriving DecidableEq

/-- Per-token statistics dictionary: token text to field dictionary. -/
abbrev AnnCounter := List (Str × PyDict Int)

/-- Merge of the variable dictionaries, `{**independent, **dependent}`,
with the duplicate warning of lines 90-100: emitted only when the merged
length differs from the summed lengths, i.e. when a category name occurs
in both dictionaries. -/
def mergeVariables (ind dep : PyDict (List Str)) :
    PyDict (List Str) × Option Str :=
  let vd := pyMerge (pyMerge [] ind) dep
  if vd.length = ind.length + dep.length then (vd, none)
  else
    let dups := vd.filter (fun kv => pyContains ind kv.1 && pyContains dep kv.1)
    (vd, some (joinSep ',' (dups.map (·.1))))

/-- Inverse token-value-to-category index of lines 103-109: every value of
every category is inserted in iteration order, later insertions
overwriting earlier ones. -/
def buildIdv (vd : PyDict (List Str)) : PyDict Str :=
  vd.foldl (fun idv kv => kv.2.foldl (fun idv2 v => pyInsert idv2 v kv.1) idv) []

/-- Trailing fixed columns of the row schema (lines 124-126). -/
def csvEndOf (previousLine : Bool) : List Str :=
  (if previousLine then [str "previous line"] else []) ++
    [str "speaker", str "interlocutor/s", str "file", str "context", str "unk"]

/-- Full row schema (lines 119-127): token, sorted dependent categories,
sorted independent categories, then the fixed trailing columns. -/
def csvHeaderOf (dep ind : PyDict (List Str)) (previousLine : Bool) :
    List Str :=
  str "token" :: (sortStrs (keysOf dep) ++ sortStrs (keysOf ind)) ++
    csvEndOf previousLine

/-- Occurrence counting with first-encounter order, Python
`collections.Counter`. -/
def counterOf (xs : List Str) : PyDict Nat :=
  xs.foldl (fun acc x => pyInsert acc x (pyGetD acc x 0 + 1)) []

/-- Initial statistics table of lines 155-161: annotation texts reduced to
their bracket-stripped terminal components, counted, each token starting
with a single `annotated` field. -/
def annCounterInit (annTokens : List Str) : AnnCounter :=
  (counterOf annTokens).map (fun kv => (kv.1, [(str "annotated", (kv.2 : Int))]))

/-- Whole-corpus pass of lines 168-185: for each token, one
`find_repetitions` call over the whole corpus fills the `not annotated`
and `not_annotated_interest` fields, with a cancellation checkpoint after
each token. -/
def globalPassM (P : Primitives) (whole : Str) (soi : List Str) :
    AnnCounter → M AnnCounter
  | [] => M.pure []
  | (t, d) :: rest =>
    let reps := P.findRepetitions whole t soi true
    M.bind (M.liftO (pyGet? d (str "annotated")) (str "KeyError: annotated"))
      (fun annV =>
        let d' := pyInsert
          (pyInsert d (str "not annotated")
            (((reps.wild : Int) + (reps.ann : Int)) - annV))
          (str "not_annotated_interest") (reps.wildInterest : Int)
        M.bind M.poll (fun _ =>
          M.bind (globalPassM P whole soi rest) (fun rest' =>
            M.pure ((t, d') :: rest'))))

/-- Summation of one field over the statistics table (lines 187-191),
`None` when the field is missing somewhere. -/
def sumField (counter : AnnCounter) (field : Str) : Option Int :=
  counter.foldl
    (fun acc kv =>
      match acc, pyGet? kv.2 field with
      | some a, some v => some (a + v)
      | _, _ => none)
    (some 0)

/-- Aggregate coverage log line of lines 193-199: the f-string divides by
the space-split corpus length and then by the summed `not annotated`
count, with no guard, so a zero divisor raises `ZeroDivisionError`. -/
def computeAggregateLog (_annotated notAnn _notAnnInterest : Int)
    (wholeWords : Nat) : Except Str Unit :=
  if wholeWords = 0 then .error (str "ZeroDivisionError: division by zero")
  else if notAnn = 0 then .error (str "ZeroDivisionError: division by zero")
  else .ok ()

/-- Token loop of the per-file pass (lines 220-237): collects the
unannotated-occurrence snippets of each token, with a cancellation
checkpoint after each token. -/
def perFileTokensM (P : Primitives) (joined : Str) (soi : List Str) :
    List Str → PyDict (List Str) → M (PyDict (List Str))
  | [], acc => M.pure acc
  | tok :: ts, acc =>
    let reps := P.findRepetitions joined tok soi false
    let acc' :=
      if 0 < reps.wna.length then pyInsert acc tok (pyGetD acc tok [] ++ reps.wna)
      else acc
    M.bind M.poll (fun _ => perFileTokensM P joined soi ts acc')

/-- Per-file pass of lines 205-237: each file's paragraphs are filtered to
the speakers of interest, joined, and scanned per token. -/
def perFilePassM (P : Primitives) (soi : List Str) (tokens : List Str) :
    List (Str × List Str) → M (PyDict (PyDict (List Str)))
  | [] => M.pure []
  | (path, crp) :: rest =>
    let interest := crp.filter (fun x => elemStr (P.getName x) soi)
    let joined := joinSep '\n' interest
    M.bind (perFileTokensM P joined soi tokens []) (fun entry =>
      M.bind (perFilePassM P soi tokens rest) (fun rest' =>
        M.pure ((path, entry) :: rest')))

/-- Token loop of the per-speaker pass (lines 250-267): initializes the two
per-speaker fields when absent, then assigns them from the speaker-restricted
`find_repetitions` call, with a cancellation checkpoint after each token. -/
def perSpeakerTokensM (P : Primitives) (spCorpus sp : Str) (soi : List Str) :
    AnnCounter → M AnnCounter
  | [] => M.pure []
  | (t, d) :: rest =>
    let reps := P.findRepetitions spCorpus t soi true
    let keyNA := sp ++ str " not annotated"
    let keyA := sp ++ str " annotated"
    let d1 := if pyContains d keyNA then d else pyInsert d keyNA 0
    let d2 := if pyContains d1 keyA then d1 else pyInsert d1 keyA 0
    let d3 := pyInsert d2 keyNA (reps.wild : Int)
    let d4 := pyInsert d3 keyA (reps.ann : Int)
    M.bind M.poll (fun _ =>
      M.bind (perSpeakerTokensM P spCorpus sp soi rest) (fun rest' =>
        M.pure ((t, d4) :: rest')))

/-- Per-speaker pass of lines 247-267, iterating the unstripped keys of the
speakers dictionary; each speaker's paragraphs are selected by name
equality and joined. -/
def perSpeakerPassM (P : Primitives) (corpus : List Str) (soi : List Str) :
    List Str → AnnCounter → M AnnCounter
  | [], counter => M.pure counter
  | sp :: sps, counter =>
    let spCorpus := joinSep '\n' (corpus.filter (fun c => beqStr (P.getName c) sp))
    M.bind (perSpeakerTokensM P spCorpus sp soi counter) (fun counter' =>
      perSpeakerPassM P corpus soi sps counter')

/-- Speaker loop of the augment stage (lines 275-281): both per-speaker
fields of the token are set to zero for every stripped speaker of
interest, with a cancellation checkpoint after each speaker. -/
def augmentSpeakersM : List Str → PyDict Int → M (PyDict Int)
  | [], d => M.pure d
  | sp :: sps, d =>
    let d' := pyInsert (pyInsert d (sp ++ str " annotated") 0)
      (sp ++ str " not annotated") 0
    M.bind M.poll (fun _ => augmentSpeakersM sps d')

/-- Augment stage of lines 270-281: per token, `total` is set to
`annotated + not annotated`, then every per-speaker field is zeroed. -/
def augmentStageM (soi : List Str) : AnnCounter → M AnnCounter
  | [] => M.pure []
  | (t, d) :: rest =>
    M.bind (M.liftO (pyGet? d (str "annotated")) (str "KeyError: annotated"))
      (fun a =>
        M.bind (M.liftO (pyGet? d (str "not annotated"))
            (str "KeyError: not annotated")) (fun na =>
          let d1 := pyInsert d (str "total") (a + na)
          M.bind (augmentSpeakersM soi d1) (fun d2 =>
            M.bind (augmentStageM soi rest) (fun rest' =>
              M.pure ((t, d2) :: rest')))))

/-- Modelled from the spec: the `QTextLogger` collaborator exposes leveled
`info`/`warning`/`error` emission only (spec section 6), while the skip
paths of lines 322 and 327 call `logger.waring(...)`; the attribute lookup
therefore raises `AttributeError`. -/
def loggerWaring {α : Type} : M α :=
  M.fail (str "AttributeError: QTextLogger object has no attribute waring")

/-- Shared context of the main loop. -/
structure LoopCtx where
  P : Primitives
  inp : GenInputs
  idv : PyDict Str
  csvHeader : List Str
  counterKeys : List Str
  soi : List Str

/-- Speaker-variable loop of lines 334-338: each independent value assigned
to the current speaker is written into its category column. -/
def svLoopM (G : LoopCtx) : List Str → List Str → M (List Str)
  | [], line => M.pure line
  | v :: vs, line =>
    M.bind (M.liftO (pyGet? G.idv v) (str "KeyError")) (fun category =>
      M.bind (M.liftO (firstIdx G.csvHeader category)
          (str "ValueError: not in list")) (fun catIdx =>
        svLoopM G vs (setAt line catIdx v)))

/-- Feature-component loop of lines 350-358: resolvable components are
written into their category column, unresolved ones are appended to the
row's `unk` cell and the run-level unknown list. -/
def featLoopM (G : LoopCtx) : List Str → List Str → List Str →
    M (List Str × List Str)
  | [], line, unk => M.pure (line, unk)
  | f :: fs, line, unk =>
    match pyGet? G.idv f with
    | none =>
      let L := G.csvHeader.length
      featLoopM G fs (setAt line (L - 1) (nthD line (L - 1) [] ++ f ++ [','])) (unk ++ [f])
    | some category =>
      M.bind (M.liftO (firstIdx G.csvHeader category)
          (str "ValueError: not in list")) (fun catIdx =>
        featLoopM G fs (setAt line catIdx f) unk)

/-- Row construction of lines 330-375 for one accepted tag match. -/
def buildRowM (G : LoopCtx) (c sp filePath curSpeaker : Str)
    (fileSpeakers : List Str) (m : FeatMatch) (unk : List Str) :
    M (List Str × List Str) :=
  let L := G.csvHeader.length
  let line0 : List Str := List.replicate L []
  M.bind (svLoopM G (pyGetD G.inp.speakersVariables curSpeaker []) line0)
    (fun line1 =>
      let parts := rsplitOnce '.' m.group1
      M.bind (M.liftO (nth? parts 1) (str "IndexError: list index out of range"))
        (fun text =>
          M.bind (M.liftO (nth? parts 0) (str "IndexError"))
            (fun featsStr =>
              let context := G.P.getNgram c G.inp.ngramPrev G.inp.ngramNext m.start
              M.bind (featLoopM G (splitOnChar '.' featsStr) line1 unk)
                (fun lu =>
                  M.bind
                    (if elemStr curSpeaker fileSpeakers then
                       M.pure (eraseFirst fileSpeakers curSpeaker)
                     else M.fail (str "ValueError: list.remove(x): x not in list"))
                    (fun speakers =>
                      let l2 := setAt lu.1 0 text
                      let l3 := setAt l2 (L - 2) context
                      let l4 := setAt l3 (L - 3) filePath
                      let l5 := setAt l4 (L - 4) (joinSep ',' speakers)
                      let l6 := setAt l5 (L - 5) curSpeaker
                      let l7 := if G.inp.previousLine then setAt l6 (L - 6) sp else l6
                      let l8 := setAt l7 (L - 1) (stripCommas (nthD l7 (L - 1) []))
                      M.pure (l8, lu.2))))))

/-- Tag loop of lines 314-375: a match whose terminal component is not a
counted token, or whose text overlaps a wrong-tag fragment, reaches a
`logger.waring` call; otherwise a row is built and appended. -/
def tagLoopM (G : LoopCtx) (c sp filePath curSpeaker : Str)
    (fileSpeakers wrongTags : List Str) :
    List FeatMatch → List (List Str) → List Str →
    M (List (List Str) × List Str)
  | [], rows, unk => M.pure (rows, unk)
  | m :: ms, rows, unk =>
    let t := m.group1
    if ¬ elemStr (lastField '.' t) G.counterKeys then loggerWaring
    else if wrongTags.any (fun wt => isSubstr t wt) then loggerWaring
    else
      M.bind (buildRowM G c sp filePath curSpeaker fileSpeakers m unk)
        (fun ru =>
          tagLoopM G c sp filePath curSpeaker fileSpeakers wrongTags ms
            (rows ++ [ru.1]) ru.2)

/-- One paragraph of the main loop (lines 293-375): checkpoint first, then
the speaker filter; for a speaker of interest the previous paragraph is
fetched at Python index `idx - 1` and every tag match is processed. -/
def mainLoopParaM (G : LoopCtx) (fileSpeakers : List Str)
    (filePath : Str) (paragraphs : List Str) (idx : Nat) (unk : List Str) :
    M (List (List Str) × List Str) :=
  M.bind M.poll (fun _ =>
    M.bind (M.liftO (pyListGet paragraphs (idx : Int)) (str "IndexError"))
      (fun c =>
        let curSpeaker := G.P.getName c
        if elemStr curSpeaker G.soi then
          M.bind (M.liftO (pyListGet paragraphs ((idx : Int) - 1))
              (str "IndexError")) (fun sp =>
            let wrongTags := (G.P.removeFeatures c).2
            let tags := G.P.featFinditer c
            tagLoopM G c sp filePath curSpeaker fileSpeakers wrongTags tags [] unk)
        else M.pure ([], unk)))

/-- Paragraph loop of one file. -/
def mainLoopFileM (G : LoopCtx) (fileSpeakers : List Str)
    (filePath : Str) (paragraphs : List Str) :
    List Nat → List (List Str) → List Str → M (List (List Str) × List Str)
  | [], rows, unk => M.pure (rows, unk)
  | idx :: idxs, rows, unk =>
    M.bind (mainLoopParaM G fileSpeakers filePath paragraphs idx unk)
      (fun ru =>
        mainLoopFileM G fileSpeakers filePath paragraphs idxs
          (rows ++ ru.1) ru.2)

/-- Main loop of lines 291-375 over the files; the per-file speaker list is
fetched from `all_speakers_dict`, raising `KeyError` when absent. -/
def mainLoopM (G : LoopCtx) (allSpeakersDict : PyDict (List Str)) :
    List (Str × List Str) → List (List Str) → List Str →
    M (List (List Str) × List Str)
  | [], rows, unk => M.pure (rows, unk)
  | (filePath, paragraphs) :: rest, rows, unk =>
    M.bind (M.liftO (pyGet? allSpeakersDict filePath) (str "KeyError"))
      (fun fileSpeakers =>
        M.bind (mainLoopFileM G fileSpeakers filePath paragraphs
            (List.range paragraphs.length) [] unk) (fun ru =>
          mainLoopM G allSpeakersDict rest (rows ++ ru.1) ru.2))

/-- Statistics table rendering of lines 380-384: the header comes from the
first token's field names (`IndexError` on an empty table), each row is the
token followed by its field values. -/
def annInfoTable (counter : AnnCounter) : Option DFCell :=
  match counter with
  | [] => none
  | (_, d0) :: _ =>
    some ⟨str "token" :: keysOf d0,
          counter.map (fun kv => Cell.s kv.1 :: kv.2.map (fun p => Cell.n p.2))⟩

/-- Missing-annotation table assembly of lines 387-401: with a nonempty log
the header width is the maximum snippet-list length over all files and
tokens — `max()` of an empty sequence raises `ValueError` when every
file's entry is empty; with an empty log the table stays empty. -/
def missingAnnotationsRows (log : PyDict (PyDict (List Str))) :
    Except Str (List (List Str)) :=
  if 0 < log.length then
    let lens := (log.map (fun kv => kv.2.map (fun tv => tv.2.length))).join
    match maxNat? lens with
    | none => .error (str "ValueError: max() arg is an empty sequence")
    | some m =>
      .ok ((([str "file", str "token"] ++
               (List.range m).map (fun i => str "context " ++ natToStr (i + 1))) ::
             (log.map (fun kv =>
               kv.2.map (fun tv => [kv.1, tv.1] ++ tv.2))).join))
  else .ok []

/-- One-hot encoding step of lines 406-419: the token and context columns
are saved, the four `to_drop` columns are removed, every remaining column
is expanded into one indicator column per distinct value (sorted, named
`column:value`), and the saved token and context columns are re-attached
at the end. -/
def oneHotStage (csvFile : List (List Str)) : Except Str DFCell :=
  match csvFile with
  | [] => .error (str "IndexError: list index out of range")
  | header :: rows =>
    let toDrop := [str "context", str "token", str "unk", str "file"]
    match firstIdx header (str "token"), firstIdx header (str "context") with
    | some ti, some ci =>
      if toDrop.all (fun d2 => (firstIdx header d2).isSome) then
        let tokens := rows.map (fun r => nthD r ti [])
        let contexts := rows.map (fun r => nthD r ci [])
        let remaining := header.filter (fun h => ¬ elemStr h toDrop)
        let projRows := rows.map (fun r =>
          (header.zip r).filterMap
            (fun hv => if elemStr hv.1 toDrop then none else some hv.2))
        let cats := (List.range remaining.length).map
          (fun j => sortStrs (dedupStr (projRows.map (fun r => nthD r j []))))
        let encHeader := ((List.range remaining.length).map
          (fun j => (nthD cats j []).map
            (fun v => nthD remaining j [] ++ ':' :: v))).join
        let encRows := projRows.map (fun r =>
          ((List.range remaining.length).map
            (fun j => (nthD cats j []).map
              (fun v => Cell.n (if nthD r j [] = v then 1 else 0)))).join)
        let finalRows := (encRows.zip (tokens.zip contexts)).map
          (fun p => p.1 ++ [Cell.s p.2.1, Cell.s p.2.2])
        .ok ⟨encHeader ++ [str "token", str "context"], finalRows⟩
      else .error (str "KeyError")
    | _, _ => .error (str "KeyError")

/-- Shallow embedding of `generate_dataset` (lines 24-445), composing the
stages above in source order with the checkpoints threaded through `M`. -/
def generateDatasetM (P : Primitives) (inp : GenInputs) : M GenOutput :=
  let corpusDict := inp.corpusDict.map (fun kv => (kv.1, P.preprocessCorpus kv.2 kv.1))
  let corpus := (corpusDict.map (·.2)).join
  M.bind
    (if corpus.length = 0 then M.fail (str "ValueError: The corpus is empty!")
     else M.pure ())
    (fun _ =>
      let soi := inp.speakersVariables.map (fun kv => stripWs kv.1)
      let allSpeakersDict := (corpusDict.map (fun kv =>
          (kv.1, sortStrs (dedupStr (kv.2.map P.getName))))).filter
            (fun kv => 0 < kv.2.length)
      let idv := buildIdv (mergeVariables inp.independentVariables
        inp.dependentVariables).1
      let csvHeader := csvHeaderOf inp.dependentVariables
        inp.independentVariables inp.previousLine
      M.bind M.poll (fun _ =>
        let whole := joinSep '\n' corpus
        let annTexts := (corpusDict.map (fun kv =>
          let crp := joinSep '\n' kv.2
          (P.checkCorrectAnns (P.featFinditer crp) crp kv.1).1)).join
        let annTokens := annTexts.map (fun x => removeBrackets (lastField '.' x))
        let counter0 := annCounterInit annTokens
        M.bind (globalPassM P whole soi counter0) (fun counter1 =>
          M.bind (M.liftO (sumField counter1 (str "annotated")) (str "KeyError"))
            (fun annSum =>
              M.bind (M.liftO (sumField counter1 (str "not annotated"))
                  (str "KeyError")) (fun naSum =>
                M.bind (M.liftO (sumField counter1 (str "not_annotated_interest"))
                    (str "KeyError")) (fun naiSum =>
                  M.bind (M.liftE (computeAggregateLog annSum naSum naiSum
                      (splitOnChar ' ' whole).length)) (fun _ =>
                    M.bind (perFilePassM P soi (keysOf counter1) corpusDict)
                      (fun naLog =>
                        M.bind (perSpeakerPassM P corpus soi
                            (keysOf inp.speakersVariables) counter1)
                          (fun counter2 =>
                            M.bind (augmentStageM soi counter2) (fun counter3 =>
                              let G : LoopCtx :=
                                ⟨P, inp, idv, csvHeader, keysOf counter3, soi⟩
                              M.bind (mainLoopM G allSpeakersDict corpusDict [] [])
                                (fun rowsUnk =>
                                  let csvFile := csvHeader :: rowsUnk.1
                                  M.bind (M.liftO (annInfoTable counter3)
                                      (str "IndexError: list index out of range"))
                                    (fun annInfo =>
                                      M.bind (M.liftE (missingAnnotationsRows naLog))
                                        (fun maRows =>
                                          M.bind (M.liftO maRows.head?
                                              (str "IndexError: list index out of range"))
                                            (fun maHeader =>
                                              M.bind (M.liftE (oneHotStage csvFile))
                                                (fun binDF =>
                                                  M.pure ⟨⟨csvHeader, rowsUnk.1⟩,
                                                          annInfo,
                                                          ⟨maHeader, maRows.tail⟩,
                                                          binDF⟩)))))))))))))))

/-- A whole run from a fresh poll state. -/
def runGen (P : Primitives) (inp : GenInputs) (flag : Nat → Bool) :
    MRes GenOutput × PollSt :=
  generateDatasetM P inp ⟨flag, 0, []⟩

/-- Terminal result held by the worker thread: `DCThread.run` stores the
returned bundle, the `None` cancellation sentinel, or the caught-exception
message (lines 467-487). -/
inductive ThreadResult where
  | noneRes : ThreadResult
  | bundle : GenOutput → ThreadResult
  | errMsg : Str → ThreadResult
deriving DecidableEq

/-- The worker-thread wrapper `DCThread.run`. -/
def dcThreadRun (P : Primitives) (inp : GenInputs) (flag : Nat → Bool) :
    ThreadResult :=
  match (runGen P inp flag).1 with
  | .ok g => .bundle g
  | .cancelled => .noneRes
  | .err e =>
    .errMsg (str "An error occurred while generating the dataset: " ++ e)

/-- Cell lookup in a table row by first-occurrence column name. -/
def lookupCell (header : List Str) (row : List Cell) (name : Str) :
    Option Cell :=
  (firstIdx header name).bind (nth? row)

/-- String-cell lookup in a string table row. -/
def lookupStrCell (header : List Str) (row : List Str) (name : Str) :
    Option Str :=
  (firstIdx header name).bind (nth? row)

/-- Statistics-table cell of a run result, by row index and column name. -/
def cellByName (r : MRes GenOutput) (rowIdx : Nat) (col : Str) : Option Cell :=
  match r with
  | .ok g => (nth? g.annotationInfo.rows rowIdx).bind
      (fun row => lookupCell g.annotationInfo.header row col)
  | .cancelled => none
  | .err _ => none

/-- Flag of a caller that never requests cancellation. -/
def neverStop : Nat → Bool := fun _ => false

/-- Flag of a caller that has already requested cancellation. -/
def alwaysStop : Nat → Bool := fun _ => true

/-- Success test on a run result. -/
def isOkRes {α : Type} : MRes α → Bool
  | .ok _ => true
  | .cancelled => false
  | .err _ => false

/-- Row dataset cell of a run result, by row index and column name. -/
def datasetCellByName (r : MRes GenOutput) (rowIdx : Nat) (col : Str) :
    Option Str :=
  match r with
  | .ok g => (nth? g.dataset.rows rowIdx).bind
      (fun row => lookupStrCell g.dataset.header row col)
  | .cancelled => none
  | .err _ => none

/-- One-hot table cell of a run result, by row index and column name. -/
def binCellByName (r : MRes GenOutput) (rowIdx : Nat) (col : Str) :
    Option Cell :=
  match r with
  | .ok g => (nth? g.binaryDataset.rows rowIdx).bind
      (fun row => lookupCell g.binaryDataset.header row col)
  | .cancelled => none
  | .err _ => none

/-- Header of the one-hot table of a run result. -/
def binHeaderOf : MRes GenOutput → List Str
  | .ok g => g.binaryDataset.header
  | .cancelled => []
  | .err _ => []

/-- Corpus with one annotated and one plain occurrence of `cats`, both
spoken by the declared speaker of interest JOHN. -/
def catsInputs : GenInputs :=
  ⟨[(str "f1", str "JOHN: cats.cats\nJOHN: cats here")],
   [(str "JOHN", [])],
   [],
   [(str "animal", [str "cats"])],
   false, 2, 2⟩

/-- Corpus whose only speaker of interest is literally named `not`, so the
per-speaker column name `not annotated` collides with the global
`not annotated` column. -/
def notSpeakerInputs : GenInputs :=
  ⟨[(str "f1", str "not: cats.cats\nnot: cats here")],
   [(str "not", [])],
   [],
   [(str "animal", [str "cats"])],
   false, 2, 2⟩

/-- Corpus in which every occurrence of the annotated token is annotated,
so the summed `not annotated` count is zero. -/
def allAnnotatedInputs : GenInputs :=
  ⟨[(str "f1", str "JOHN: cats.cats")],
   [(str "JOHN", [])],
   [],
   [(str "animal", [str "cats"])],
   false, 2, 2⟩

/-- Corpus containing a structurally invalid tag (unbalanced bracket):
the validator drops it from the statistics table, but the main loop still
finds the match and takes the skip path. -/
def badTagInputs : GenInputs :=
  ⟨[(str "f1", str "JOHN: cats.cats\nJOHN: [dogs.animal.dogs cats here")],
   [(str "JOHN", [])],
   [],
   [(str "animal", [str "cats"])],
   false, 2, 2⟩

/-- Corpus in which speaker JOHN carries independent value `m` of category
`gender` while the tag component `f` resolves to the same category. -/
def genderInputs : GenInputs :=
  ⟨[(str "f1", str "JOHN: f.cats\nJOHN: cats here")],
   [(str "JOHN", [str "m"])],
   [(str "gender", [str "m", str "f"])],
   [(str "animal", [str "cats"])],
   false, 2, 2⟩

/-- Corpus whose only unannotated occurrence belongs to a speaker outside
the interest set: the global pass counts it, but the per-file pass records
no snippet, leaving every file's missing-annotation entry empty. -/
def interestGapInputs : GenInputs :=
  ⟨[(str "f1", str "JOHN: cats.cats\nMARY: cats here")],
   [(str "JOHN", [])],
   [],
   [(str "animal", [str "cats"])],
   false, 2, 2⟩

/-- Last category of the variable dictionary whose value list contains the
token value, in iteration order. -/
def lastCat (vd : PyDict (List Str)) (x : Str) : Option Str :=
  (vd.reverse.find? (fun kv => elemStr x kv.2)).map (·.1)

/-- Independent dictionary of the duplicate-value scenario. -/
def c5Ind : PyDict (List Str) := [(str "a", [str "v"])]

/-- Dependent dictionary of the duplicate-value scenario. -/
def c5Dep : PyDict (List Str) := [(str "b", [str "v"])]

/-- Three-category variant of the overwrite scenario used to witness the
amended C6 theorem. -/
def c6Inputs : GenInputs :=
  ⟨[(str "f1", str "JOHN: f.cats\nJOHN: cats here")],
   [(str "JOHN", [str "m"])],
   [(str "gender", [str "m", str "f"]), (str "zeta", [str "z"])],
   [(str "animal", [str "cats"])],
   false, 2, 2⟩

/-- Main-loop context of the `c6Inputs` run. -/
def c6Ctx : LoopCtx :=
  ⟨specPrims, c6Inputs,
   buildIdv (mergeVariables c6Inputs.independentVariables
     c6Inputs.dependentVariables).1,
   csvHeaderOf c6Inputs.dependentVariables c6Inputs.independentVariables false,
   [str "cats"], [str "JOHN"]⟩

/-- Row emitted by `buildRowM` in the c6 witness scenario. -/
def c6Row : List Str :=
  [str "cats", [], str "f", [], str "JOHN", [], str "f1",
   str "JOHN: f.cats", []]

/-- Previous-line variant of the cats corpus. -/
def c10Inputs : GenInputs :=
  ⟨[(str "f1", str "JOHN: cats.cats\nJOHN: cats here")],
   [(str "JOHN", [])],
   [],
   [(str "animal", [str "cats"])],
   true, 2, 2⟩

/-- Main-loop context of the `c10Inputs` run. -/
def c10Ctx : LoopCtx :=
  ⟨specPrims, c10Inputs,
   buildIdv (mergeVariables c10Inputs.independentVariables
     c10Inputs.dependentVariables).1,
   csvHeaderOf c10Inputs.dependentVariables c10Inputs.independentVariables true,
   [str "cats"], [str "JOHN"]⟩

/-- Row emitted for the first paragraph of the `c10Inputs` file. -/
def c10Row : List Str :=
  [str "cats", str "cats", str "JOHN: cats here", str "JOHN", [],
   str "f1", str "JOHN: cats.cats", []]

/-- Header of the one-hot witness table. -/
def c7Header : List Str :=
  [str "token", str "animal", str "speaker", str "interlocutor/s",
   str "file", str "context", str "unk"]

/-- Rows of the one-hot witness table. -/
def c7Rows : List (List Str) :=
  [[str "cats", str "cats", str "JOHN", [], str "f1", str "ctx", []]]

/-- Encoded output of the one-hot witness table. -/
def c7Out : DFCell :=
  ⟨[str "animal:cats", str "speaker:JOHN", str "interlocutor/s:",
    str "token", str "context"],
   [[Cell.n 1, Cell.n 1, Cell.n 1, Cell.s (str "cats"), Cell.s (str "ctx")]]⟩

/-- Property of a computation that does not end in the cancellation
sentinel: its appended observations are all `false`. -/
def NoObsTrue {α : Type} (m : M α) : Prop :=
  ∀ s : PollSt, (m s).1 ≠ MRes.cancelled →
    ∃ t, (m s).2.obs = s.obs ++ t ∧ ∀ b ∈ t, b = false

/-- Common key list of every per-token dictionary of a statistics table. -/
def KeysEq (l : AnnCounter) (ks : List Str) : Prop :=
  ∀ e ∈ l, keysOf e.2 = ks

/-- Key-list effect of the augment speaker loop. -/
def augSpF (sps : List Str) (ks : List Str) : List Str :=
  sps.foldl (fun ks sp => insKey (insKey ks (sp ++ str " annotated"))
    (sp ++ str " not annotated")) ks

/-- Key-list effect of the whole augment stage on one token. -/
def augKeysF (soi ks : List Str) : List Str :=
  augSpF soi (insKey ks (str "total"))

/-- Output bundle of the `catsInputs` run (fallback value unreachable). -/
def c2OutW : GenOutput :=
  match (runGen specPrims catsInputs neverStop).1 with
  | MRes.ok g => g
  | MRes.cancelled => ⟨⟨[], []⟩, ⟨[], []⟩, ⟨[], []⟩, ⟨[], []⟩⟩
  | MRes.err _ => ⟨⟨[], []⟩, ⟨[], []⟩, ⟨[], []⟩, ⟨[], []⟩⟩

/-- Statistics row of the `catsInputs` run. -/
def c2RowW : List Cell :=
  [Cell.s (str "cats"), Cell.n 1, Cell.n 1, Cell.n 1, Cell.n 0, Cell.n 0,
   Cell.n 2]

example : str "token" = ['t', 'o', 'k', 'e', 'n'] := by decide

example : splitOnChar '.' (str "a.b.c") = [str "a", str "b", str "c"] := by decide

example : rsplitOnce '.' (str "x.y.z") = [str "x.y", str "z"] := by decide

example : rsplitOnce '.' (str "plain") = [str "plain"] := by decide

example : stripCommas (str ",a,b,") = str "a,b" := by decide

example : sortStrs [str "b", str "a"] = [str "a", str "b"] := by decide

example : wordsOf (str "JOHN: cats here") = [str "JOHN:", str "cats", str "here"] := by decide

/-- C1 evidence: for the `catsInputs` run, the per-speaker pass computes its
counters over only JOHN's paragraphs — the `find_repetitions` call it makes
(line 252) returns 1 annotated and 1 wild occurrence there — yet the
returned statistics table holds 0 in both `JOHN annotated` and
`JOHN not annotated`: the augment loop of lines 275-277 overwrites the
computed per-speaker values after the pass. -/
theorem c1_per_speaker_values_discarded :
    isOkRes (runGen specPrims catsInputs neverStop).1 = true ∧
    (specFindReps (str "JOHN: cats.cats\nJOHN: cats here") (str "cats")
        [str "JOHN"] true).ann = 1 ∧
    (specFindReps (str "JOHN: cats.cats\nJOHN: cats here") (str "cats")
        [str "JOHN"] true).wild = 1 ∧
    cellByName (runGen specPrims catsInputs neverStop).1 0
        (str "JOHN annotated") = some (Cell.n 0) ∧
    cellByName (runGen specPrims catsInputs neverStop).1 0
        (str "JOHN not annotated") = some (Cell.n 0) := by
  exact ⟨by decide, by decide, by decide, by decide, by decide⟩

/-- C3 counterexample: in the `allAnnotatedInputs` run the summed
`not annotated` count is zero, and the engine does not report zero — the
aggregate log line of lines 193-199 divides by the count with no guard, the
run raises `ZeroDivisionError`, and `DCThread.run` stores the failure
message. -/
theorem c3_zero_guard_counterexample :
    (runGen specPrims allAnnotatedInputs neverStop).1 =
      MRes.err (str "ZeroDivisionError: division by zero") ∧
    dcThreadRun specPrims allAnnotatedInputs neverStop =
      ThreadResult.errMsg (str ("An error occurred while generating the " ++
        "dataset: ZeroDivisionError: division by zero")) := by
  exact ⟨by decide, by decide⟩

/-- C3 amended: the percentage of omissions by speakers of interest is
computed with no division-by-zero guard: whenever the summed
`not annotated` count is zero (the corpus word count is positive on every
reachable run), the aggregate-log computation raises `ZeroDivisionError`
instead of reporting zero, and the run ends as a failure outcome. -/
theorem c3_division_unguarded (a nai : Int) (w : Nat) (hw : w ≠ 0) :
    computeAggregateLog a 0 nai w =
      Except.error (str "ZeroDivisionError: division by zero") := by
  unfold computeAggregateLog
  simp [hw]

/-- Witness of `c3_division_unguarded` at a concrete input. -/
theorem c3_division_unguarded_witness :
    (3 : Nat) ≠ 0 ∧
    computeAggregateLog 5 0 2 3 =
      Except.error (str "ZeroDivisionError: division by zero") :=
  ⟨by decide, c3_division_unguarded 5 2 3 (by decide)⟩

/-- C4 evidence: in the `badTagInputs` run a feature-tag match whose
terminal component is not a counted token reaches the skip path, which
calls the nonexistent `logger.waring` (lines 321-322); the run raises
`AttributeError` instead of warning and continuing, so the engine returns
the failure outcome and not the result bundle. -/
theorem c4_skip_path_raises :
    (runGen specPrims badTagInputs neverStop).1 =
      MRes.err (str "AttributeError: QTextLogger object has no attribute waring") ∧
    dcThreadRun specPrims badTagInputs neverStop =
      ThreadResult.errMsg (str ("An error occurred while generating the " ++
        "dataset: AttributeError: QTextLogger object has no attribute waring")) ∧
    (∀ g : GenOutput,
      dcThreadRun specPrims badTagInputs neverStop ≠ ThreadResult.bundle g) := by
  refine ⟨by decide, by decide, ?_⟩
  intro g h
  have h1 : dcThreadRun specPrims badTagInputs neverStop =
      ThreadResult.errMsg (str ("An error occurred while generating the " ++
        "dataset: AttributeError: QTextLogger object has no attribute waring")) := by
    decide
  rw [h1] at h
  exact ThreadResult.noConfusion h

/-- C5 counterexample: the token value `v` appears under category `a`
(independent, seen first) and category `b` (dependent, seen last); the
inverse index maps `v` to the last-seen `b`, not the first-seen `a`, and
the merge emits no duplicate warning for it. -/
theorem c5_first_wins_counterexample :
    pyGet? (buildIdv (mergeVariables c5Ind c5Dep).1) (str "v") =
      some (str "b") ∧
    some (str "b") ≠ some (str "a") ∧
    (mergeVariables c5Ind c5Dep).2 = none := by
  exact ⟨by decide, by decide, by decide⟩

/-- C6 counterexample: in the `genderInputs` run the speaker-level value
`m` and the tag component `f` resolve to the same category `gender`, and
the emitted row holds the tag component `f`: the feature loop of lines
355-358 runs after the speaker-variable loop and overwrites the column. -/
theorem c6_speaker_wins_counterexample :
    isOkRes (runGen specPrims genderInputs neverStop).1 = true ∧
    datasetCellByName (runGen specPrims genderInputs neverStop).1 0
      (str "gender") = some (str "f") ∧
    some (str "f") ≠ some (str "m") := by
  exact ⟨by decide, by decide, by decide⟩

/-- C7 counterexample: in the `catsInputs` run the dataset row carries file
`f1`, but the one-hot table has no `file` column at all: `file` is in the
dropped column list of line 410 and only token and context are re-attached
(lines 418-419). -/
theorem c7_file_not_reattached_counterexample :
    isOkRes (runGen specPrims catsInputs neverStop).1 = true ∧
    datasetCellByName (runGen specPrims catsInputs neverStop).1 0
      (str "file") = some (str "f1") ∧
    binCellByName (runGen specPrims catsInputs neverStop).1 0
      (str "file") = none ∧
    firstIdx (binHeaderOf (runGen specPrims catsInputs neverStop).1)
      (str "file") = none := by
  exact ⟨by decide, by decide, by decide, by decide⟩

/-- Flattening a list of empty lists yields the empty list. -/
theorem join_nil_of_all_nil {α : Type} :
    ∀ l : List (List α), (∀ x ∈ l, x = []) → l.join = []
  | [], _ => rfl
  | x :: t, h => by
    have hx : x = [] := h x (by simp)
    have ht : t.join = [] := join_nil_of_all_nil t (fun y hy => h y (by simp [hy]))
    simp [List.join, hx, ht]

/-- C9: when every file's entry in the missing-annotation log is an empty
map (and the log itself is nonempty, as it holds one entry per file), the
table assembly takes the maximum of an empty sequence and raises
`ValueError`; the concrete `interestGapInputs` run — whose only unannotated
occurrence belongs to a non-interest speaker — indeed ends as a failure
outcome rather than a bundle with an empty table. -/
theorem c9_empty_log_max_raises :
    (∀ log : PyDict (PyDict (List Str)), log ≠ [] →
      (∀ p ∈ log, p.2 = ([] : PyDict (List Str))) →
      missingAnnotationsRows log =
        Except.error (str "ValueError: max() arg is an empty sequence")) ∧
    dcThreadRun specPrims interestGapInputs neverStop =
      ThreadResult.errMsg (str ("An error occurred while generating the " ++
        "dataset: ValueError: max() arg is an empty sequence")) := by
  constructor
  · intro log hne hall
    have hlen : 0 < log.length := by
      cases log with
      | nil => exact absurd rfl hne
      | cons a t => simp
    have hjoin : (log.map (fun kv => kv.2.map (fun tv => tv.2.length))).join =
        ([] : List Nat) := by
      apply join_nil_of_all_nil
      intro x hx
      rcases List.mem_map.mp hx with ⟨kv, hkv, rfl⟩
      rw [hall kv hkv]
      rfl
    simp only [missingAnnotationsRows, if_pos hlen, hjoin]
    rfl
  · decide

/-- Witness of the first part of `c9_empty_log_max_raises` at a concrete
one-file log. -/
theorem c9_empty_log_max_witness :
    missingAnnotationsRows [(str "f1", [])] =
      Except.error (str "ValueError: max() arg is an empty sequence") :=
  c9_empty_log_max_raises.1 [(str "f1", [])] (by decide) (by decide)

/-- Lookup after insertion: the inserted key returns the new value, other
keys are unaffected. -/
theorem pyGet?_pyInsert {α : Type} :
    ∀ (d : PyDict α) (k x : Str) (v : α),
      pyGet? (pyInsert d k v) x = if k = x then some v else pyGet? d x
  | [], k, x, v => by
    simp only [pyInsert, pyGet?]
  | (k', w) :: t, k, x, v => by
    by_cases hk : k' = k
    · subst hk
      simp only [pyInsert, if_pos rfl]
      by_cases hx : k' = x
      · simp [pyGet?, hx]
      · simp [pyGet?, hx]
    · simp only [pyInsert, if_neg hk]
      by_cases hx : k' = x
      · subst hx
        have hkx : ¬ k = k' := fun h => hk h.symm
        simp [pyGet?, hkx]
      · simp [pyGet?, hx, pyGet?_pyInsert t k x v]

/-- Key list of a nonempty dict. -/
theorem keysOf_cons {α : Type} (k : Str) (v : α) (t : PyDict α) :
    keysOf ((k, v) :: t) = k :: keysOf t := rfl

/-- Membership in a dict is membership in its key list. -/
theorem pyContains_iff_mem_keys {α : Type} :
    ∀ d : PyDict α, ∀ x : Str, pyContains d x = true ↔ x ∈ keysOf d
  | [], x => by simp [pyContains, pyGet?, keysOf]
  | (k, v) :: t, x => by
    by_cases hk : k = x
    · subst hk
      simp [pyContains, pyGet?, keysOf_cons]
    · simp only [pyContains, pyGet?, if_neg hk, keysOf_cons, List.mem_cons]
      constructor
      · intro h
        exact Or.inr ((pyContains_iff_mem_keys t x).mp h)
      · intro h
        rcases h with h | h
        · exact absurd h.symm hk
        · exact (pyContains_iff_mem_keys t x).mpr h

/-- Lookup over an appended dict searches the left part first. -/
theorem pyGet?_append {α : Type} :
    ∀ (a b : PyDict α) (x : Str),
      pyGet? (a ++ b) x =
        match pyGet? a x with
        | some v => some v
        | none => pyGet? b x
  | [], b, x => by simp [pyGet?]
  | (k, v) :: t, b, x => by
    by_cases hk : k = x
    · simp [pyGet?, hk]
    · simp [pyGet?, hk, pyGet?_append t b x]

/-- Inserting an absent key appends the pair. -/
theorem pyInsert_of_not_contains {α : Type} :
    ∀ (d : PyDict α) (k : Str) (v : α),
      pyContains d k = false → pyInsert d k v = d ++ [(k, v)]
  | [], k, v, _ => rfl
  | (k', w) :: t, k, v, h => by
    have hk : ¬ k' = k := by
      intro he
      simp [pyContains, pyGet?, he] at h
    simp only [pyInsert, if_neg hk, List.cons_append, List.cons.injEq, true_and]
    apply pyInsert_of_not_contains t k v
    simpa [pyContains, pyGet?, if_neg hk] using h

/-- Inserting a present key keeps the length. -/
theorem pyInsert_length_of_contains {α : Type} :
    ∀ (d : PyDict α) (k : Str) (v : α),
      pyContains d k = true → (pyInsert d k v).length = d.length
  | [], k, v, h => by simp [pyContains, pyGet?] at h
  | (k', w) :: t, k, v, h => by
    by_cases hk : k' = k
    · simp [pyInsert, hk]
    · simp only [pyInsert, if_neg hk, List.length_cons]
      rw [pyInsert_length_of_contains t k v]
      simpa [pyContains, pyGet?, if_neg hk] using h

/-- Insertion grows the dict by at most one entry. -/
theorem pyInsert_length_le {α : Type} :
    ∀ (d : PyDict α) (k : Str) (v : α),
      (pyInsert d k v).length ≤ d.length + 1
  | [], _, _ => by simp [pyInsert]
  | (k', w) :: t, k, v => by
    by_cases hk : k' = k
    · simp [pyInsert, hk]
    · simp only [pyInsert, if_neg hk, List.length_cons]
      have := pyInsert_length_le t k v
      omega

/-- Insertion preserves membership of any key. -/
theorem pyContains_pyInsert_of {α : Type} (d : PyDict α) (k x : Str) (v : α)
    (h : pyContains d x = true) : pyContains (pyInsert d k v) x = true := by
  by_cases hk : k = x
  · simp [pyContains, pyGet?_pyInsert, hk]
  · simpa [pyContains, pyGet?_pyInsert, hk] using h

/-- Search over an appended list looks left first. -/
theorem find?_append_my {α : Type} (p : α → Bool) :
    ∀ a b : List α,
      (a ++ b).find? p =
        match a.find? p with
        | some x => some x
        | none => b.find? p
  | [], b => by simp [List.find?]
  | x :: t, b => by
    by_cases hp : p x = true
    · simp [List.find?, hp]
    · simp only [List.cons_append, List.find?]
      rw [Bool.not_eq_true] at hp
      simp [hp, find?_append_my p t b]

/-- Value lookup after folding one category's value list into the inverse
index: contained values map to that category, others are untouched. -/
theorem idv_inner_fold :
    ∀ (vals : List Str) (init : PyDict Str) (k x : Str),
      pyGet? (vals.foldl (fun i v => pyInsert i v k) init) x =
        if elemStr x vals = true then some k else pyGet? init x
  | [], init, k, x => by simp [elemStr]
  | v :: vs, init, k, x => by
    simp only [List.foldl_cons]
    rw [idv_inner_fold vs (pyInsert init v k) k x]
    by_cases hv : v = x
    · by_cases he : elemStr x vs = true
      · simp [elemStr, hv, he]
      · simp [elemStr, hv, he, pyGet?_pyInsert]
    · by_cases he : elemStr x vs = true
      · simp [elemStr, hv, he]
      · simp [elemStr, hv, he, pyGet?_pyInsert]

/-- Value lookup after the whole inverse-index fold: the last category
whose value list contains the value wins. -/
theorem buildIdv_foldl :
    ∀ (vd : PyDict (List Str)) (init : PyDict Str) (x : Str),
      pyGet? (vd.foldl
          (fun idv kv => kv.2.foldl (fun i v => pyInsert i v kv.1) idv) init) x =
        match vd.reverse.find? (fun kv => elemStr x kv.2) with
        | some kv => some kv.1
        | none => pyGet? init x
  | [], init, x => by simp
  | kv :: t, init, x => by
    simp only [List.foldl_cons, List.reverse_cons]
    rw [buildIdv_foldl t _ x, find?_append_my]
    cases hfind : t.reverse.find? (fun kv => elemStr x kv.2) with
    | some kv' => simp
    | none =>
      simp only [List.find?]
      rw [idv_inner_fold]
      by_cases he : elemStr x kv.2 = true
      · simp [he]
      · simp [he]

/-- A merge whose right side has fresh, pairwise-distinct keys is an
append. -/
theorem pyMerge_append {α : Type} :
    ∀ (b a : PyDict α), (∀ kv ∈ b, pyContains a kv.1 = false) →
      (keysOf b).Nodup → pyMerge a b = a ++ b
  | [], a, _, _ => by simp [pyMerge]
  | kv :: t, a, hdis, hnd => by
    have h1 : pyContains a kv.1 = false := hdis kv (by simp)
    have hins : pyInsert a kv.1 kv.2 = a ++ [kv] :=
      pyInsert_of_not_contains a kv.1 kv.2 h1
    have hk1 : kv.1 ∉ keysOf t := by
      have := hnd
      rw [keysOf_cons kv.1 kv.2 t] at this
      exact (List.nodup_cons.mp this).1
    have hdis' : ∀ kv' ∈ t, pyContains (a ++ [kv]) kv'.1 = false := by
      intro kv' h'
      have hne : ¬ kv.1 = kv'.1 := by
        intro he
        exact hk1 (he ▸ List.mem_map_of_mem (·.1) h')
      have ha : pyGet? a kv'.1 = none := by
        have := hdis kv' (List.mem_cons_of_mem kv h')
        simpa [pyContains, Option.isSome] using
          (Option.not_isSome_iff_eq_none.mp (by simp [pyContains] at this ⊢; exact this))
      simp [pyContains, pyGet?_append, ha, pyGet?, hne]
    have hnd' : (keysOf t).Nodup := by
      rw [keysOf_cons kv.1 kv.2 t] at hnd
      exact (List.nodup_cons.mp hnd).2
    have IH := pyMerge_append t (a ++ [kv]) hdis' hnd'
    show List.foldl _ (pyInsert a kv.1 kv.2) t = a ++ kv :: t
    rw [hins]
    calc List.foldl (fun acc kv => pyInsert acc kv.1 kv.2) (a ++ [kv]) t
        = pyMerge (a ++ [kv]) t := rfl
      _ = (a ++ [kv]) ++ t := IH
      _ = a ++ kv :: t := by simp

/-- A merge never exceeds the summed lengths. -/
theorem pyMerge_length_le {α : Type} :
    ∀ (b a : PyDict α), (pyMerge a b).length ≤ a.length + b.length
  | [], a => by simp [pyMerge]
  | kv :: t, a => by
    have h := pyMerge_length_le t (pyInsert a kv.1 kv.2)
    have h2 := pyInsert_length_le a kv.1 kv.2
    show (List.foldl _ (pyInsert a kv.1 kv.2) t).length ≤ a.length + (t.length + 1)
    have : pyMerge (pyInsert a kv.1 kv.2) t =
        List.foldl (fun acc kv => pyInsert acc kv.1 kv.2) (pyInsert a kv.1 kv.2) t := rfl
    rw [this] at h
    omega

/-- A merge in which some right-side key already exists on the left is
strictly shorter than the summed lengths. -/
theorem pyMerge_length_lt {α : Type} :
    ∀ (b a : PyDict α) (kv₀ : Str × α), kv₀ ∈ b →
      pyContains a kv₀.1 = true →
      (pyMerge a b).length < a.length + b.length
  | [], _, kv₀, h, _ => absurd h (by simp)
  | kv :: t, a, kv₀, hmem, hcont => by
    show (List.foldl _ (pyInsert a kv.1 kv.2) t).length < a.length + (t.length + 1)
    have hfold : pyMerge (pyInsert a kv.1 kv.2) t =
        List.foldl (fun acc kv => pyInsert acc kv.1 kv.2) (pyInsert a kv.1 kv.2) t := rfl
    rcases List.mem_cons.mp hmem with heq | hmem'
    · subst heq
      have hl : (pyInsert a kv₀.1 kv₀.2).length = a.length :=
        pyInsert_length_of_contains a kv₀.1 kv₀.2 hcont
      have h := pyMerge_length_le t (pyInsert a kv₀.1 kv₀.2)
      rw [hfold] at h
      omega
    · have hc2 : pyContains (pyInsert a kv.1 kv.2) kv₀.1 = true :=
        pyContains_pyInsert_of a kv.1 kv₀.1 kv.2 hcont
      have h := pyMerge_length_lt t (pyInsert a kv.1 kv.2) kv₀ hmem' hc2
      have h2 := pyInsert_length_le a kv.1 kv.2
      rw [hfold] at h
      omega

/-- C5 amended: in the merged dictionary the inverse index maps every token
value to the last-seen category containing it, and the duplicate warning is
emitted exactly when a category name occurs in both input dictionaries —
value-level duplicates across distinct categories are silent. -/
theorem c5_last_wins_amended :
    (∀ (vd : PyDict (List Str)) (x : Str),
        pyGet? (buildIdv vd) x = lastCat vd x) ∧
    (∀ ind dep : PyDict (List Str), (keysOf ind).Nodup → (keysOf dep).Nodup →
        ((mergeVariables ind dep).2 = none ↔
          ∀ k ∈ keysOf dep, k ∉ keysOf ind)) := by
  constructor
  · intro vd x
    unfold buildIdv lastCat
    rw [buildIdv_foldl]
    cases h : vd.reverse.find? (fun kv => elemStr x kv.2) with
    | some kv => simp
    | none => simp [pyGet?]
  · intro ind dep hni hnd
    have hbase : pyMerge [] ind = ind := by
      have := pyMerge_append ind [] (fun kv _ => rfl) hni
      simpa using this
    unfold mergeVariables
    rw [hbase]
    constructor
    · intro h k hkdep hkind
      by_cases hc : (pyMerge ind dep).length = ind.length + dep.length
      · rcases List.mem_map.mp hkdep with ⟨kv₀, hmem, hfst⟩
        have hcont : pyContains ind kv₀.1 = true := by
          rw [hfst]
          exact (pyContains_iff_mem_keys ind k).mpr hkind
        have := pyMerge_length_lt dep ind kv₀ hmem hcont
        omega
      · rw [if_neg hc] at h
        exact Option.noConfusion h
    · intro hdis
      have hvd : pyMerge ind dep = ind ++ dep := by
        apply pyMerge_append dep ind ?_ hnd
        intro kv hkv
        have hkd : kv.1 ∈ keysOf dep := List.mem_map_of_mem (·.1) hkv
        have hnot := hdis kv.1 hkd
        cases hcc : pyContains ind kv.1 with
        | false => rfl
        | true => exact absurd ((pyContains_iff_mem_keys ind kv.1).mp hcc) hnot
      rw [hvd, if_pos (by simp)]

/-- Witness of `c5_last_wins_amended` at the concrete duplicate-value
dictionaries. -/
theorem c5_last_wins_witness :
    pyGet? (buildIdv (mergeVariables c5Ind c5Dep).1) (str "v") =
      lastCat (mergeVariables c5Ind c5Dep).1 (str "v") ∧
    ((mergeVariables c5Ind c5Dep).2 = none ↔
      ∀ k ∈ keysOf c5Dep, k ∉ keysOf c5Ind) :=
  ⟨c5_last_wins_amended.1 (mergeVariables c5Ind c5Dep).1 (str "v"),
   c5_last_wins_amended.2 c5Ind c5Dep (by decide) (by decide)⟩

/-- Positional update preserves length. -/
theorem length_setAt {α : Type} :
    ∀ (l : List α) (i : Nat) (v : α), (setAt l i v).length = l.length
  | [], _, _ => rfl
  | _ :: t, 0, v => rfl
  | a :: t, n + 1, v => by simp [setAt, length_setAt t n v]

/-- Positional update does not affect other positions. -/
theorem nth?_setAt_ne {α : Type} :
    ∀ (l : List α) (i j : Nat) (v : α), i ≠ j →
      nth? (setAt l i v) j = nth? l j
  | [], _, _, _, _ => rfl
  | a :: t, 0, 0, v, h => absurd rfl h
  | a :: t, 0, j + 1, v, _ => rfl
  | a :: t, i + 1, 0, v, _ => rfl
  | a :: t, i + 1, j + 1, v, h => by
    simp only [setAt, nth?]
    exact nth?_setAt_ne t i j v (fun he => h (by rw [he]))

/-- Positional update writes its position when it is in range. -/
theorem nth?_setAt_self {α : Type} :
    ∀ (l : List α) (i : Nat) (v : α), i < l.length →
      nth? (setAt l i v) i = some v
  | [], i, v, h => by simp at h
  | a :: t, 0, v, _ => rfl
  | a :: t, i + 1, v, h => by
    simp only [setAt, nth?]
    exact nth?_setAt_self t i v (by simpa using h)

/-- A found index is within the list. -/
theorem firstIdx_lt_length :
    ∀ (l : List Str) (x : Str) (i : Nat), firstIdx l x = some i → i < l.length
  | [], x, i, h => Option.noConfusion h
  | k :: t, x, i, h => by
    by_cases hk : k = x
    · rw [firstIdx, if_pos hk] at h
      have h0 : (0 : Nat) = i := Option.some.inj h
      simp [← h0]
    · simp only [firstIdx, if_neg hk] at h
      cases hf : firstIdx t x with
      | none => rw [hf] at h; exact Option.noConfusion h
      | some j =>
        rw [hf] at h
        simp at h
        have := firstIdx_lt_length t x j hf
        simp [List.length_cons]
        omega

/-- Search stays in the left part when the key is there. -/
theorem firstIdx_append_left :
    ∀ (pre suf : List Str) (x : Str), x ∈ pre →
      firstIdx (pre ++ suf) x = firstIdx pre x
  | [], _, x, h => absurd h (by simp)
  | k :: t, suf, x, h => by
    by_cases hk : k = x
    · simp [firstIdx, hk]
    · have hx : x ∈ t := by
        rcases List.mem_cons.mp h with h1 | h1
        · exact absurd h1.symm hk
        · exact h1
      simp only [List.cons_append, firstIdx, if_neg hk, List.append_eq]
      rw [firstIdx_append_left t suf x hx]

/-- A present key is found. -/
theorem firstIdx_isSome_of_mem :
    ∀ (l : List Str) (x : Str), x ∈ l → ∃ i, firstIdx l x = some i
  | [], x, h => absurd h (by simp)
  | k :: t, x, h => by
    by_cases hk : k = x
    · exact ⟨0, by simp [firstIdx, hk]⟩
    · have hx : x ∈ t := by
        rcases List.mem_cons.mp h with h1 | h1
        · exact absurd h1.symm hk
        · exact h1
      rcases firstIdx_isSome_of_mem t x hx with ⟨i, hi⟩
      exact ⟨i + 1, by simp [firstIdx, hk, hi]⟩

/-- Empty speaker-variable loop. -/
theorem svLoopM_nil (G : LoopCtx) (line : List Str) (s : PollSt) :
    svLoopM G [] line s = (.ok line, s) := rfl

/-- Resolved step of the speaker-variable loop. -/
theorem svLoopM_cons_ok (G : LoopCtx) (v : Str) (vs : List Str)
    (line : List Str) (s : PollSt) (cat : Str) (i : Nat)
    (hvc : pyGet? G.idv v = some cat)
    (hcat : firstIdx G.csvHeader cat = some i) :
    svLoopM G (v :: vs) line s = svLoopM G vs (setAt line i v) s := by
  simp [svLoopM, M.bind, M.liftO, hvc, hcat]

/-- Empty feature loop. -/
theorem featLoopM_nil (G : LoopCtx) (line unk : List Str) (s : PollSt) :
    featLoopM G [] line unk s = (.ok (line, unk), s) := rfl

/-- Resolved step of the feature loop. -/
theorem featLoopM_cons_resolved (G : LoopCtx) (f : Str) (fs : List Str)
    (line unk : List Str) (s : PollSt) (cat : Str) (i : Nat)
    (hfc : pyGet? G.idv f = some cat)
    (hcat : firstIdx G.csvHeader cat = some i) :
    featLoopM G (f :: fs) line unk s = featLoopM G fs (setAt line i f) unk s := by
  simp [featLoopM, M.bind, M.liftO, hfc, hcat]

/-- Unresolved step of the feature loop. -/
theorem featLoopM_cons_unresolved (G : LoopCtx) (f : Str) (fs : List Str)
    (line unk : List Str) (s : PollSt)
    (hfc : pyGet? G.idv f = none) :
    featLoopM G (f :: fs) line unk s =
      featLoopM G fs
        (setAt line (G.csvHeader.length - 1)
          (nthD line (G.csvHeader.length - 1) [] ++ f ++ [','])) (unk ++ [f]) s := by
  simp [featLoopM, hfc]

/-- C6 amended: tag components win over speaker-level assignments.  When the
current speaker carries independent value `v` of category `cat` and the
accepted tag's single feature component `f` resolves to the same category,
the emitted row holds `f` at that category's column: the feature loop runs
after the speaker-variable loop and overwrites the column (speaker-level
values persist only in categories no component resolves to). -/
theorem c6_tag_component_wins_amended
    (G : LoopCtx) (c sp filePath curSpeaker : Str) (fileSpeakers : List Str)
    (m : FeatMatch) (unk : List Str) (s s' : PollSt)
    (row unk' : List Str) (v f cat fstr text0 : Str) (i : Nat)
    (hv : pyGetD G.inp.speakersVariables curSpeaker [] = [v])
    (hvc : pyGet? G.idv v = some cat)
    (hparts : rsplitOnce '.' m.group1 = [fstr, text0])
    (hsplit : splitOnChar '.' fstr = [f])
    (hfc : pyGet? G.idv f = some cat)
    (hcat : firstIdx G.csvHeader cat = some i)
    (hi0 : i ≠ 0)
    (hiL : i + 6 < G.csvHeader.length)
    (hspk : elemStr curSpeaker fileSpeakers = true)
    (hrun : buildRowM G c sp filePath curSpeaker fileSpeakers m unk s =
      (.ok (row, unk'), s')) :
    nth? row i = some f := by
  simp only [buildRowM, M.bind, M.liftO, M.pure, hv, hvc, hcat, hparts,
    hsplit, hfc, hspk, svLoopM, featLoopM, nth?, if_true] at hrun
  simp only [Prod.mk.injEq, MRes.ok.injEq] at hrun
  obtain ⟨⟨hrow, -⟩, -⟩ := hrun
  subst hrow
  rw [nth?_setAt_ne _ _ _ _ (by omega : G.csvHeader.length - 1 ≠ i)]
  by_cases hprev : G.inp.previousLine = true
  · simp only [hprev, if_true]
    rw [nth?_setAt_ne _ _ _ _ (by omega : G.csvHeader.length - 6 ≠ i)]
    rw [nth?_setAt_ne _ _ _ _ (by omega : G.csvHeader.length - 5 ≠ i)]
    rw [nth?_setAt_ne _ _ _ _ (by omega : G.csvHeader.length - 4 ≠ i)]
    rw [nth?_setAt_ne _ _ _ _ (by omega : G.csvHeader.length - 3 ≠ i)]
    rw [nth?_setAt_ne _ _ _ _ (by omega : G.csvHeader.length - 2 ≠ i)]
    rw [nth?_setAt_ne _ _ _ _ (by omega : (0 : Nat) ≠ i)]
    rw [nth?_setAt_self _ _ _
      (by rw [length_setAt, List.length_replicate]; omega)]
  · simp only [hprev, Bool.false_eq_true, if_false]
    rw [nth?_setAt_ne _ _ _ _ (by omega : G.csvHeader.length - 5 ≠ i)]
    rw [nth?_setAt_ne _ _ _ _ (by omega : G.csvHeader.length - 4 ≠ i)]
    rw [nth?_setAt_ne _ _ _ _ (by omega : G.csvHeader.length - 3 ≠ i)]
    rw [nth?_setAt_ne _ _ _ _ (by omega : G.csvHeader.length - 2 ≠ i)]
    rw [nth?_setAt_ne _ _ _ _ (by omega : (0 : Nat) ≠ i)]
    rw [nth?_setAt_self _ _ _
      (by rw [length_setAt, List.length_replicate]; omega)]

/-- Witness of `c6_tag_component_wins_amended` at the concrete overwrite
scenario: the gender column (index 2) of the emitted row holds the tag
component `f`, not the speaker-level `m`. -/
theorem c6_tag_component_wins_witness :
    nth? c6Row 2 = some (str "f") :=
  c6_tag_component_wins_amended c6Ctx (str "JOHN: f.cats") (str "prev")
    (str "f1") (str "JOHN") [str "JOHN"] ⟨6, str "f.cats", str "f.cats"⟩ []
    ⟨neverStop, 0, []⟩ ⟨neverStop, 0, []⟩ c6Row [] (str "m") (str "f")
    (str "gender") (str "f") (str "cats") 2
    (by decide) (by decide) (by decide) (by decide) (by decide) (by decide)
    (by decide) (by decide) (by decide) (by rfl)

/-- Successful bind factors through a successful first stage. -/
theorem bind_ok_elim {α β : Type} {m : M α} {f : α → M β} {s s' : PollSt}
    {b : β} (h : M.bind m f s = (.ok b, s')) :
    ∃ a s₁, m s = (.ok a, s₁) ∧ f a s₁ = (.ok b, s') := by
  unfold M.bind at h
  cases hm : m s with
  | mk r s₁ =>
    rw [hm] at h
    cases r with
    | ok a => exact ⟨a, s₁, rfl, h⟩
    | cancelled => exact absurd h (by simp)
    | err e => exact absurd h (by simp)

/-- Successful option lift means the option was present. -/
theorem liftO_ok_elim {α : Type} {o : Option α} {e : Str} {s s' : PollSt}
    {a : α} (h : M.liftO o e s = (.ok a, s')) : o = some a ∧ s' = s := by
  unfold M.liftO at h
  cases o with
  | some x =>
    simp only [Prod.mk.injEq, MRes.ok.injEq] at h
    exact ⟨by rw [h.1], h.2.symm⟩
  | none => exact absurd h (by simp)

/-- Successful except lift means the computation succeeded. -/
theorem liftE_ok_elim {α : Type} {x : Except Str α} {s s' : PollSt}
    {a : α} (h : M.liftE x s = (.ok a, s')) : x = .ok a ∧ s' = s := by
  unfold M.liftE at h
  cases x with
  | ok y =>
    simp only [Prod.mk.injEq, MRes.ok.injEq] at h
    exact ⟨by rw [h.1], h.2.symm⟩
  | error e => exact absurd h (by simp)

/-- Pure results are returned unchanged. -/
theorem pure_ok_elim {α : Type} {a b : α} {s s' : PollSt}
    (h : M.pure a s = (.ok b, s')) : b = a ∧ s' = s := by
  unfold M.pure at h
  simp only [Prod.mk.injEq, MRes.ok.injEq] at h
  exact ⟨h.1.symm, h.2.symm⟩

/-- The speaker-variable loop only updates positions, keeping the length. -/
theorem svLoopM_length (G : LoopCtx) :
    ∀ (vs : List Str) (line : List Str) (s : PollSt) (line' : List Str)
      (s' : PollSt), svLoopM G vs line s = (.ok line', s') →
      line'.length = line.length
  | [], line, s, line', s', h => by
    rcases pure_ok_elim h with ⟨h1, -⟩
    rw [h1]
  | v :: vs, line, s, line', s', h => by
    rcases bind_ok_elim h with ⟨cat, s₁, hcat, h2⟩
    rcases liftO_ok_elim hcat with ⟨-, rfl⟩
    rcases bind_ok_elim h2 with ⟨i, s₂, hidx, h3⟩
    rcases liftO_ok_elim hidx with ⟨-, rfl⟩
    have := svLoopM_length G vs (setAt line i v) _ line' s' h3
    rw [this, length_setAt]

/-- The feature loop only updates positions, keeping the length. -/
theorem featLoopM_length (G : LoopCtx) :
    ∀ (fs : List Str) (line unk : List Str) (s : PollSt)
      (out : List Str × List Str) (s' : PollSt),
      featLoopM G fs line unk s = (.ok out, s') → out.1.length = line.length
  | [], line, unk, s, out, s', h => by
    rcases pure_ok_elim h with ⟨h1, -⟩
    rw [h1]
  | f :: fs, line, unk, s, out, s', h => by
    cases hf : pyGet? G.idv f with
    | none =>
      rw [featLoopM, hf] at h
      have := featLoopM_length G fs _ _ _ out s' h
      rw [this, length_setAt]
    | some cat =>
      rw [featLoopM, hf] at h
      rcases bind_ok_elim h with ⟨i, s₁, hidx, h2⟩
      rcases liftO_ok_elim hidx with ⟨-, rfl⟩
      have := featLoopM_length G fs _ _ _ out s' h2
      rw [this, length_setAt]

/-- Python `lst[-1]` is the last element. -/
theorem pyListGet_neg_one {α : Type} :
    ∀ l : List α, pyListGet l (-1) = l.getLast? := by
  intro l
  cases l with
  | nil => rfl
  | cons a t =>
    show pyListGet (a :: t) (-1) = _
    unfold pyListGet
    rw [if_pos (by omega)]
    have hj : ((a :: t).length : Int) + (-1) = ((a :: t).length - 1 : Nat) := by
      simp [List.length_cons]
    rw [hj, if_neg (by omega)]
    have : ((((a :: t).length - 1 : Nat) : Int)).toNat = (a :: t).length - 1 := by
      omega
    rw [this]
    clear hj this
    induction t generalizing a with
    | nil => rfl
    | cons b t ih =>
      show nth? (a :: b :: t) ((b :: t).length) = (a :: b :: t).getLast?
      rw [show nth? (a :: b :: t) ((b :: t).length) =
        nth? (b :: t) ((b :: t).length - 1) from by simp [nth?, List.length_cons]]
      rw [ih b]
      simp [List.getLast?_cons_cons]

/-- Search lands in the right part when the key is not on the left. -/
theorem firstIdx_append_right :
    ∀ (pre suf : List Str) (x : Str), x ∉ pre →
      firstIdx (pre ++ suf) x = (firstIdx suf x).map (· + pre.length)
  | [], suf, x, _ => by
    cases h : firstIdx suf x <;> simp [h]
  | k :: t, suf, x, h => by
    have hk : ¬ k = x := fun he => h (by simp [he])
    have hx : x ∉ t := fun hxt => h (by simp [hxt])
    simp only [List.cons_append, firstIdx, if_neg hk, List.append_eq]
    rw [firstIdx_append_right t suf x hx]
    cases firstIdx suf x with
    | none => simp
    | some i => simp [List.length_cons]; omega

/-- With the previous-line option enabled, every row built by `buildRowM`
holds the passed previous paragraph at the previous-line position. -/
theorem buildRowM_prev_cell (G : LoopCtx) (c sp filePath curSpeaker : Str)
    (fileSpeakers : List Str) (m : FeatMatch) (unk : List Str) (s s' : PollSt)
    (row unk2 : List Str)
    (hprev : G.inp.previousLine = true)
    (hL : 7 ≤ G.csvHeader.length)
    (hrun : buildRowM G c sp filePath curSpeaker fileSpeakers m unk s =
      (.ok (row, unk2), s')) :
    nth? row (G.csvHeader.length - 6) = some sp := by
  unfold buildRowM at hrun
  rcases bind_ok_elim hrun with ⟨line1, s1, hsv, h2⟩
  rcases bind_ok_elim h2 with ⟨text0, s2, htext, h3⟩
  rcases bind_ok_elim h3 with ⟨fstr, s3, hfstr, h4⟩
  rcases bind_ok_elim h4 with ⟨lu, s4, hfeat, h5⟩
  rcases bind_ok_elim h5 with ⟨speakers, s5, hspk, h6⟩
  rcases pure_ok_elim h6 with ⟨h7, -⟩
  have hrow := congrArg Prod.fst h7
  simp only at hrow
  have hlen1 : line1.length = G.csvHeader.length := by
    have := svLoopM_length G _ _ _ _ _ hsv
    rw [this, List.length_replicate]
  have hlen2 : lu.1.length = G.csvHeader.length := by
    rw [featLoopM_length G _ _ _ _ _ _ hfeat, hlen1]
  rw [hrow]
  simp only [hprev, if_true]
  rw [nth?_setAt_ne _ _ _ _ (by omega :
    G.csvHeader.length - 1 ≠ G.csvHeader.length - 6)]
  rw [nth?_setAt_self _ _ _ (by
    simp only [length_setAt, hlen2]
    omega)]

/-- Every row accumulated by the tag loop under the previous-line option
holds the previous paragraph at the previous-line position. -/
theorem tagLoopM_prev_cells (G : LoopCtx) (c sp filePath curSpeaker : Str)
    (fileSpeakers wrongTags : List Str)
    (hprev : G.inp.previousLine = true) (hL : 7 ≤ G.csvHeader.length) :
    ∀ (tags : List FeatMatch) (rows : List (List Str)) (unk : List Str)
      (s s' : PollSt) (out : List (List Str) × List Str),
      (∀ r ∈ rows, nth? r (G.csvHeader.length - 6) = some sp) →
      tagLoopM G c sp filePath curSpeaker fileSpeakers wrongTags tags rows
        unk s = (.ok out, s') →
      ∀ r ∈ out.1, nth? r (G.csvHeader.length - 6) = some sp
  | [], rows, unk, s, s', out, hrows, hrun => by
    rcases pure_ok_elim hrun with ⟨h1, -⟩
    intro r hr
    rw [h1] at hr
    exact hrows r hr
  | m :: ms, rows, unk, s, s', out, hrows, hrun => by
    rw [tagLoopM] at hrun
    by_cases h1 : elemStr (lastField '.' m.group1) G.counterKeys = true
    · by_cases h2 : wrongTags.any (fun wt => isSubstr m.group1 wt) = true
      · simp [h1, h2, loggerWaring, M.fail] at hrun
      · simp only [h1, not_true, if_false, h2, if_true,
          Bool.false_eq_true] at hrun
        rcases bind_ok_elim hrun with ⟨ru, s₁, hbuild, hrec⟩
        have hcell := buildRowM_prev_cell G c sp filePath curSpeaker
          fileSpeakers m unk s s₁ ru.1 ru.2 hprev hL hbuild
        refine tagLoopM_prev_cells G c sp filePath curSpeaker fileSpeakers
          wrongTags hprev hL ms (rows ++ [ru.1]) ru.2 s₁ s' out ?_ hrec
        intro r hr
        rcases List.mem_append.mp hr with hr1 | hr1
        · exact hrows r hr1
        · rw [List.mem_singleton.mp hr1]
          exact hcell
    · simp [h1, loggerWaring, M.fail] at hrun

/-- C10: with the include-previous-line option enabled, every row built
from the first paragraph (index 0) of a file is given the last paragraph
of that same file as its previous line, because the lookup uses Python
index `idx - 1 = -1`; the previous-line column sits right after the
category columns. -/
theorem c10_first_paragraph_wraps (G : LoopCtx) (cats fileSpeakers : List Str)
    (filePath : Str) (paragraphs : List Str) (unk : List Str) (s s' : PollSt)
    (rows : List (List Str)) (unk' : List Str)
    (hdr : G.csvHeader = (str "token" :: cats) ++ csvEndOf true)
    (hprev : G.inp.previousLine = true)
    (hnotin : str "previous line" ∉ str "token" :: cats)
    (hrun : mainLoopParaM G fileSpeakers filePath paragraphs 0 unk s =
      (.ok (rows, unk'), s')) :
    firstIdx G.csvHeader (str "previous line") = some (cats.length + 1) ∧
    ∀ r ∈ rows, nth? r (cats.length + 1) = paragraphs.getLast? := by
  have hend : firstIdx (csvEndOf true) (str "previous line") = some 0 := by
    decide
  have hidx : firstIdx G.csvHeader (str "previous line") =
      some (cats.length + 1) := by
    rw [hdr, firstIdx_append_right _ _ _ hnotin, hend]
    simp [List.length_cons]
  have hL : 7 ≤ G.csvHeader.length := by
    rw [hdr]
    simp [csvEndOf, List.length_append, List.length_cons]
  have hC : cats.length + 1 = G.csvHeader.length - 6 := by
    rw [hdr]
    simp [csvEndOf, List.length_append, List.length_cons]
  refine ⟨hidx, ?_⟩
  rw [mainLoopParaM] at hrun
  rcases bind_ok_elim hrun with ⟨u, s1, hpoll, h2⟩
  rcases bind_ok_elim h2 with ⟨c, s2, hc, h3⟩
  by_cases hsoi : elemStr (G.P.getName c) G.soi = true
  · simp only [hsoi, if_true] at h3
    rcases bind_ok_elim h3 with ⟨sp, s3, hsp, h4⟩
    rcases liftO_ok_elim hsp with ⟨hsp0, -⟩
    have hneg : ((0 : Nat) : Int) - 1 = -1 := by norm_num
    rw [hneg] at hsp0
    have hlast : paragraphs.getLast? = some sp := by
      rw [← pyListGet_neg_one, hsp0]
    intro r hr
    rw [hlast, hC]
    exact tagLoopM_prev_cells G c sp filePath (G.P.getName c) fileSpeakers
      ((G.P.removeFeatures c).2) hprev hL (G.P.featFinditer c) [] unk s3 s'
      (rows, unk') (by intro r hr; simp at hr) h4 r hr
  · simp only [hsoi, Bool.false_eq_true, if_false] at h3
    rcases pure_ok_elim h3 with ⟨h5, -⟩
    have h6 : rows = [] := congrArg Prod.fst h5
    intro r hr
    rw [h6] at hr
    simp at hr

/-- Witness of `c10_first_paragraph_wraps`: processing paragraph 0 of the
two-paragraph file puts the file's last paragraph in the previous-line
column (index 2). -/
theorem c10_first_paragraph_witness :
    firstIdx c10Ctx.csvHeader (str "previous line") = some 2 ∧
    ∀ r ∈ [c10Row], nth? r 2 =
      [str "JOHN: cats.cats", str "JOHN: cats here"].getLast? :=
  c10_first_paragraph_wraps c10Ctx [str "animal"] [str "JOHN"] (str "f1")
    [str "JOHN: cats.cats", str "JOHN: cats here"] []
    ⟨neverStop, 0, []⟩ ⟨neverStop, 1, [false]⟩ [c10Row] []
    (by decide) (by rfl) (by decide) (by rfl)

/-- Zipping two maps over the same list is a single map. -/
theorem zip_map_same {α β γ : Type} (f : α → β) (g : α → γ) :
    ∀ l : List α, (l.map f).zip (l.map g) = l.map (fun x => (f x, g x))
  | [] => rfl
  | x :: t => by
    simp [List.zip_cons_cons, zip_map_same f g t]

/-- Positional lookup commutes with map. -/
theorem nth?_map {α β : Type} (f : α → β) :
    ∀ (l : List α) (k : Nat), nth? (l.map f) k = (nth? l k).map f
  | [], _ => rfl
  | x :: t, 0 => rfl
  | x :: t, k + 1 => by simp [nth?, nth?_map f t k]

/-- Indicator column names always contain a colon. -/
theorem mem_enc_has_colon (lst : List Nat) (f : Nat → List Str) (g : Nat → Str) :
    ∀ x ∈ (lst.map (fun j => (f j).map (fun v => g j ++ ':' :: v))).join,
      ':' ∈ x := by
  intro x hx
  rcases List.mem_join.mp hx with ⟨l2, hl2, hxl⟩
  rcases List.mem_map.mp hl2 with ⟨j, -, rfl⟩
  rcases List.mem_map.mp hxl with ⟨v, -, rfl⟩
  exact List.mem_append_right _ (by simp)

/-- C7 amended: the one-hot step drops context, token, unk and file, and
re-attaches exactly token and context: every encoded row is the indicator
cells followed by the original row's token and context values, and the
encoded header never contains the file (or unk) column — every indicator
name contains a colon and only token and context are appended. -/
theorem c7_token_context_passthrough_amended
    (header : List Str) (rows : List (List Str)) (out : DFCell)
    (hrun : oneHotStage (header :: rows) = .ok out) :
    str "file" ∉ out.header ∧ str "unk" ∉ out.header ∧
    ∃ ti ci, firstIdx header (str "token") = some ti ∧
      firstIdx header (str "context") = some ci ∧
      ∀ (k : Nat) (r : List Cell), nth? out.rows k = some r →
        ∃ orig : List Str, nth? rows k = some orig ∧
          ∃ enc : List Cell,
            r = enc ++ [Cell.s (nthD orig ti []), Cell.s (nthD orig ci [])] := by
  unfold oneHotStage at hrun
  dsimp only at hrun
  split at hrun
  next ti ci hti hci =>
    split at hrun
    next hall =>
      have hout := Except.ok.inj hrun
      subst hout
      dsimp only
      refine ⟨?_, ?_, ti, ci, hti, hci, ?_⟩
      · intro hmem
        rcases List.mem_append.mp hmem with h1 | h1
        · have := mem_enc_has_colon _ _ _ _ h1
          revert this
          decide
        · revert h1
          decide
      · intro hmem
        rcases List.mem_append.mp hmem with h1 | h1
        · have := mem_enc_has_colon _ _ _ _ h1
          revert this
          decide
        · revert h1
          decide
      · intro k r hr
        rw [List.map_map, zip_map_same, zip_map_same, List.map_map,
          nth?_map] at hr
        cases horig : nth? rows k with
        | none => rw [horig] at hr; exact Option.noConfusion hr
        | some orig =>
          rw [horig] at hr
          refine ⟨orig, rfl, ?_⟩
          simp only [Option.map_some', Option.some.injEq] at hr
          exact ⟨_, hr.symm⟩
    next hall => exact absurd hrun (by simp)
  next x y hmatch => exact absurd hrun (by simp)

/-- Witness of `c7_token_context_passthrough_amended` at the concrete
one-row table. -/
theorem c7_token_context_passthrough_witness :
    str "file" ∉ c7Out.header ∧ str "unk" ∉ c7Out.header ∧
    ∃ ti ci, firstIdx c7Header (str "token") = some ti ∧
      firstIdx c7Header (str "context") = some ci ∧
      ∀ (k : Nat) (r : List Cell), nth? c7Out.rows k = some r →
        ∃ orig : List Str, nth? c7Rows k = some orig ∧
          ∃ enc : List Cell,
            r = enc ++ [Cell.s (nthD orig ti []), Cell.s (nthD orig ci [])] :=
  c7_token_context_passthrough_amended c7Header c7Rows c7Out (by rfl)

/-- Pure results observe nothing. -/
theorem noObs_pure {α : Type} (a : α) : NoObsTrue (M.pure a) := by
  intro s _
  exact ⟨[], by simp [M.pure], by simp⟩

/-- Failures observe nothing. -/
theorem noObs_fail {α : Type} (e : Str) : NoObsTrue (@M.fail α e) := by
  intro s _
  exact ⟨[], by simp [M.fail], by simp⟩

/-- Option lifts observe nothing. -/
theorem noObs_liftO {α : Type} (o : Option α) (e : Str) :
    NoObsTrue (M.liftO o e) := by
  intro s _
  exact ⟨[], by simp [M.liftO], by simp⟩

/-- Except lifts observe nothing. -/
theorem noObs_liftE {α : Type} (x : Except Str α) : NoObsTrue (M.liftE x) := by
  intro s _
  exact ⟨[], by simp [M.liftE], by simp⟩

/-- A checkpoint that does not cancel observed `false`. -/
theorem noObs_poll : NoObsTrue M.poll := by
  intro s h
  unfold M.poll at *
  by_cases hb : s.flag s.count = true
  · simp [hb] at h
  · rw [Bool.not_eq_true] at hb
    refine ⟨[false], ?_, by simp⟩
    simp [hb]

/-- Sequencing preserves the all-false observation property. -/
theorem noObs_bind {α β : Type} {m : M α} {f : α → M β}
    (hm : NoObsTrue m) (hf : ∀ a, NoObsTrue (f a)) :
    NoObsTrue (M.bind m f) := by
  intro s h
  unfold M.bind at h ⊢
  rcases hms : m s with ⟨r, s₁⟩
  rw [hms] at h
  cases r with
  | cancelled => simp at h
  | err e =>
    have h1 := hm s (by rw [hms]; simp)
    rw [hms] at h1
    simpa using h1
  | ok a =>
    have h1 := hm s (by rw [hms]; simp)
    rw [hms] at h1
    rcases h1 with ⟨t1, ht1, hall1⟩
    have h2 : (f a s₁).1 ≠ MRes.cancelled := by simpa using h
    rcases hf a s₁ h2 with ⟨t2, ht2, hall2⟩
    refine ⟨t1 ++ t2, ?_, ?_⟩
    · show (f a s₁).2.obs = s.obs ++ (t1 ++ t2)
      rw [ht2]
      simp only at ht1
      rw [ht1, List.append_assoc]
    · intro b hb
      rcases List.mem_append.mp hb with hb | hb
      · exact hall1 b hb
      · exact hall2 b hb

/-- Branching preserves the all-false observation property. -/
theorem noObs_ite {α : Type} (c : Prop) [Decidable c] {m1 m2 : M α}
    (h1 : NoObsTrue m1) (h2 : NoObsTrue m2) :
    NoObsTrue (if c then m1 else m2) := by
  by_cases hc : c
  · simpa [hc] using h1
  · simpa [hc] using h2

/-- The warning-typo failure observes nothing. -/
theorem noObs_waring {α : Type} : NoObsTrue (@loggerWaring α) :=
  noObs_fail _

/-- The whole-corpus pass only observes `false` when it is not cancelled. -/
theorem noObs_globalPass (P : Primitives) (whole : Str) (soi : List Str) :
    ∀ l : AnnCounter, NoObsTrue (globalPassM P whole soi l)
  | [] => noObs_pure []
  | (t, d) :: rest => by
    unfold globalPassM
    exact noObs_bind (noObs_liftO _ _) (fun _ =>
      noObs_bind noObs_poll (fun _ =>
        noObs_bind (noObs_globalPass P whole soi rest) (fun _ => noObs_pure _)))

/-- The per-file token loop only observes `false` when not cancelled. -/
theorem noObs_perFileTokens (P : Primitives) (joined : Str) (soi : List Str) :
    ∀ (toks : List Str) (acc : PyDict (List Str)),
      NoObsTrue (perFileTokensM P joined soi toks acc)
  | [], acc => noObs_pure acc
  | tok :: ts, acc => by
    unfold perFileTokensM
    exact noObs_bind noObs_poll (fun _ => noObs_perFileTokens P joined soi ts _)

/-- The per-file pass only observes `false` when not cancelled. -/
theorem noObs_perFilePass (P : Primitives) (soi tokens : List Str) :
    ∀ files : List (Str × List Str),
      NoObsTrue (perFilePassM P soi tokens files)
  | [] => noObs_pure []
  | (path, crp) :: rest => by
    unfold perFilePassM
    exact noObs_bind (noObs_perFileTokens P _ soi tokens [])
      (fun _ => noObs_bind (noObs_perFilePass P soi tokens rest)
        (fun _ => noObs_pure _))

/-- The per-speaker token loop only observes `false` when not cancelled. -/
theorem noObs_perSpeakerTokens (P : Primitives) (spCorpus sp : Str)
    (soi : List Str) :
    ∀ l : AnnCounter, NoObsTrue (perSpeakerTokensM P spCorpus sp soi l)
  | [] => noObs_pure []
  | (t, d) :: rest => by
    unfold perSpeakerTokensM
    exact noObs_bind noObs_poll (fun _ =>
      noObs_bind (noObs_perSpeakerTokens P spCorpus sp soi rest)
        (fun _ => noObs_pure _))

/-- The per-speaker pass only observes `false` when not cancelled. -/
theorem noObs_perSpeakerPass (P : Primitives) (corpus : List Str)
    (soi : List Str) :
    ∀ (sps : List Str) (counter : AnnCounter),
      NoObsTrue (perSpeakerPassM P corpus soi sps counter)
  | [], counter => noObs_pure counter
  | sp :: sps, counter => by
    unfold perSpeakerPassM
    exact noObs_bind (noObs_perSpeakerTokens P _ sp soi counter)
      (fun c' => noObs_perSpeakerPass P corpus soi sps c')

/-- The augment speaker loop only observes `false` when not cancelled. -/
theorem noObs_augmentSpeakers :
    ∀ (sps : List Str) (d : PyDict Int),
      NoObsTrue (augmentSpeakersM sps d)
  | [], d => noObs_pure d
  | sp :: sps, d => by
    unfold augmentSpeakersM
    exact noObs_bind noObs_poll (fun _ => noObs_augmentSpeakers sps _)

/-- The augment stage only observes `false` when not cancelled. -/
theorem noObs_augmentStage (soi : List Str) :
    ∀ l : AnnCounter, NoObsTrue (augmentStageM soi l)
  | [] => noObs_pure []
  | (t, d) :: rest => by
    unfold augmentStageM
    exact noObs_bind (noObs_liftO _ _) (fun _ =>
      noObs_bind (noObs_liftO _ _) (fun _ =>
        noObs_bind (noObs_augmentSpeakers soi _) (fun _ =>
          noObs_bind (noObs_augmentStage soi rest) (fun _ => noObs_pure _))))

/-- The speaker-variable loop only observes `false` when not cancelled. -/
theorem noObs_svLoop (G : LoopCtx) :
    ∀ (vs : List Str) (line : List Str), NoObsTrue (svLoopM G vs line)
  | [], line => noObs_pure line
  | v :: vs, line => by
    unfold svLoopM
    exact noObs_bind (noObs_liftO _ _) (fun _ =>
      noObs_bind (noObs_liftO _ _) (fun _ => noObs_svLoop G vs _))

/-- The feature loop only observes `false` when not cancelled. -/
theorem noObs_featLoop (G : LoopCtx) :
    ∀ (fs : List Str) (line unk : List Str),
      NoObsTrue (featLoopM G fs line unk)
  | [], line, unk => noObs_pure (line, unk)
  | f :: fs, line, unk => by
    show NoObsTrue (featLoopM G (f :: fs) line unk)
    rw [featLoopM]
    cases hf : pyGet? G.idv f with
    | none => exact noObs_featLoop G fs _ _
    | some cat =>
      exact noObs_bind (noObs_liftO _ _) (fun _ => noObs_featLoop G fs _ _)

/-- Row construction only observes `false` when not cancelled. -/
theorem noObs_buildRow (G : LoopCtx) (c sp filePath curSpeaker : Str)
    (fileSpeakers : List Str) (m : FeatMatch) (unk : List Str) :
    NoObsTrue (buildRowM G c sp filePath curSpeaker fileSpeakers m unk) := by
  unfold buildRowM
  exact noObs_bind (noObs_svLoop G _ _) (fun _ =>
    noObs_bind (noObs_liftO _ _) (fun _ =>
      noObs_bind (noObs_liftO _ _) (fun _ =>
        noObs_bind (noObs_featLoop G _ _ _) (fun _ =>
          noObs_bind (noObs_ite _ (noObs_pure _) (noObs_fail _))
            (fun _ => noObs_pure _)))))

/-- The tag loop only observes `false` when not cancelled. -/
theorem noObs_tagLoop (G : LoopCtx) (c sp filePath curSpeaker : Str)
    (fileSpeakers wrongTags : List Str) :
    ∀ (tags : List FeatMatch) (rows : List (List Str)) (unk : List Str),
      NoObsTrue (tagLoopM G c sp filePath curSpeaker fileSpeakers wrongTags
        tags rows unk)
  | [], rows, unk => noObs_pure (rows, unk)
  | m :: ms, rows, unk => by
    unfold tagLoopM
    refine noObs_ite _ noObs_waring (noObs_ite _ noObs_waring ?_)
    exact noObs_bind (noObs_buildRow G c sp filePath curSpeaker fileSpeakers m unk)
      (fun ru => noObs_tagLoop G c sp filePath curSpeaker fileSpeakers
        wrongTags ms _ _)

/-- One paragraph of the main loop only observes `false` when not
cancelled. -/
theorem noObs_mainLoopPara (G : LoopCtx) (fileSpeakers : List Str)
    (filePath : Str) (paragraphs : List Str) (idx : Nat) (unk : List Str) :
    NoObsTrue (mainLoopParaM G fileSpeakers filePath paragraphs idx unk) := by
  unfold mainLoopParaM
  exact noObs_bind noObs_poll (fun _ =>
    noObs_bind (noObs_liftO _ _) (fun c =>
      noObs_ite _
        (noObs_bind (noObs_liftO _ _) (fun sp =>
          noObs_tagLoop G c sp filePath _ fileSpeakers _ _ [] unk))
        (noObs_pure _)))

/-- The per-file paragraph loop only observes `false` when not cancelled. -/
theorem noObs_mainLoopFile (G : LoopCtx) (fileSpeakers : List Str)
    (filePath : Str) (paragraphs : List Str) :
    ∀ (idxs : List Nat) (rows : List (List Str)) (unk : List Str),
      NoObsTrue (mainLoopFileM G fileSpeakers filePath paragraphs idxs rows unk)
  | [], rows, unk => noObs_pure (rows, unk)
  | idx :: idxs, rows, unk => by
    unfold mainLoopFileM
    exact noObs_bind (noObs_mainLoopPara G fileSpeakers filePath paragraphs idx unk)
      (fun ru => noObs_mainLoopFile G fileSpeakers filePath paragraphs idxs _ _)

/-- The main loop only observes `false` when not cancelled. -/
theorem noObs_mainLoop (G : LoopCtx) (allSpeakersDict : PyDict (List Str)) :
    ∀ (files : List (Str × List Str)) (rows : List (List Str))
      (unk : List Str),
      NoObsTrue (mainLoopM G allSpeakersDict files rows unk)
  | [], rows, unk => noObs_pure (rows, unk)
  | (filePath, paragraphs) :: rest, rows, unk => by
    unfold mainLoopM
    exact noObs_bind (noObs_liftO _ _) (fun fileSpeakers =>
      noObs_bind (noObs_mainLoopFile G fileSpeakers filePath paragraphs _ [] unk)
        (fun ru => noObs_mainLoop G allSpeakersDict rest _ _))

/-- The whole engine only observes `false` when it is not cancelled. -/
theorem noObs_generateDataset (P : Primitives) (inp : GenInputs) :
    NoObsTrue (generateDatasetM P inp) := by
  unfold generateDatasetM
  exact noObs_bind (noObs_ite _ (noObs_fail _) (noObs_pure _)) (fun _ =>
    noObs_bind noObs_poll (fun _ =>
      noObs_bind (noObs_globalPass P _ _ _) (fun counter1 =>
        noObs_bind (noObs_liftO _ _) (fun _ =>
          noObs_bind (noObs_liftO _ _) (fun _ =>
            noObs_bind (noObs_liftO _ _) (fun _ =>
              noObs_bind (noObs_liftE _) (fun _ =>
                noObs_bind (noObs_perFilePass P _ _ _) (fun _ =>
                  noObs_bind (noObs_perSpeakerPass P _ _ _ _) (fun counter2 =>
                    noObs_bind (noObs_augmentStage _ _) (fun counter3 =>
                      noObs_bind (noObs_mainLoop _ _ _ [] []) (fun _ =>
                        noObs_bind (noObs_liftO _ _) (fun _ =>
                          noObs_bind (noObs_liftE _) (fun _ =>
                            noObs_bind (noObs_liftO _ _) (fun _ =>
                              noObs_bind (noObs_liftE _) (fun _ =>
                                noObs_pure _)))))))))))))))

/-- C8: whenever the cancellation flag is observed set at any checkpoint of
a run, the engine returns exactly the cancellation sentinel, which is
distinct from the success bundle and from the failure outcome by
construction; the sentinel carries no data, so no partial dataset can be
returned. -/
theorem c8_cancellation_sentinel :
    (∀ (P : Primitives) (inp : GenInputs) (flag : Nat → Bool),
      (∃ b ∈ (runGen P inp flag).2.obs, b = true) →
      (runGen P inp flag).1 = MRes.cancelled) ∧
    (∀ g : GenOutput, (MRes.cancelled : MRes GenOutput) ≠ .ok g) ∧
    (∀ e : Str, (MRes.cancelled : MRes GenOutput) ≠ .err e) := by
  refine ⟨?_, fun g h => MRes.noConfusion h, fun e h => MRes.noConfusion h⟩
  intro P inp flag hex
  by_contra hne
  have hno := noObs_generateDataset P inp ⟨flag, 0, []⟩ (by
    intro hcan
    exact hne (by unfold runGen; exact hcan))
  rcases hno with ⟨t, ht, hall⟩
  rcases hex with ⟨b, hb, hbt⟩
  unfold runGen at hb
  rw [ht] at hb
  simp only [List.nil_append] at hb
  rw [hall b hb] at hbt
  exact Bool.noConfusion hbt

/-- Witness of `c8_cancellation_sentinel`: with the flag already set, the
first checkpoint observes `true` and the run returns the sentinel. -/
theorem c8_cancellation_witness :
    (∃ b ∈ (runGen specPrims catsInputs alwaysStop).2.obs, b = true) ∧
    (runGen specPrims catsInputs alwaysStop).1 = MRes.cancelled :=
  ⟨⟨true, by decide, rfl⟩,
   c8_cancellation_sentinel.1 specPrims catsInputs alwaysStop
     ⟨true, by decide, rfl⟩⟩

/-- Key-list effect of an insertion. -/
theorem keysOf_pyInsert {α : Type} :
    ∀ (d : PyDict α) (k : Str) (v : α),
      keysOf (pyInsert d k v) = insKey (keysOf d) k
  | [], k, v => rfl
  | (k', w) :: t, k, v => by
    have hstep : pyInsert ((k', w) :: t) k v =
        if k' = k then (k', v) :: t else (k', w) :: pyInsert t k v := rfl
    have hins : insKey (keysOf ((k', w) :: t)) k =
        if k' = k then k' :: keysOf t else k' :: insKey (keysOf t) k := rfl
    rw [hstep, hins]
    by_cases hk : k' = k
    · rw [if_pos hk, if_pos hk, keysOf_cons]
    · rw [if_neg hk, if_neg hk, keysOf_cons, keysOf_pyInsert t k v]

/-- Inserting a present key changes nothing. -/
theorem insKey_of_mem : ∀ (ks : List Str) (x : Str), x ∈ ks → insKey ks x = ks
  | [], x, h => absurd h (by simp)
  | k :: t, x, h => by
    by_cases hk : k = x
    · simp [insKey, hk]
    · have hx : x ∈ t := by
        rcases List.mem_cons.mp h with h1 | h1
        · exact absurd h1.symm hk
        · exact h1
      simp [insKey, hk, insKey_of_mem t x hx]

/-- The inserted key is present afterwards. -/
theorem mem_insKey_self : ∀ (ks : List Str) (x : Str), x ∈ insKey ks x
  | [], x => by simp [insKey]
  | k :: t, x => by
    by_cases hk : k = x
    · simp [insKey, hk]
    · simp only [insKey, if_neg hk, List.mem_cons]
      exact Or.inr (mem_insKey_self t x)

/-- Insertion preserves key membership. -/
theorem mem_insKey_of : ∀ (ks : List Str) (x y : Str), y ∈ ks → y ∈ insKey ks x
  | [], x, y, h => absurd h (by simp)
  | k :: t, x, y, h => by
    by_cases hk : k = x
    · simpa [insKey, hk] using h
    · simp only [insKey, if_neg hk, List.mem_cons]
      rcases List.mem_cons.mp h with h1 | h1
      · exact Or.inl h1
      · exact Or.inr (mem_insKey_of t x y h1)

/-- Membership agrees between dicts with equal key lists. -/
theorem pyContains_congr_keys {α β : Type} (d1 : PyDict α) (d2 : PyDict β)
    (k : Str) (h : keysOf d1 = keysOf d2) :
    pyContains d1 k = pyContains d2 k := by
  cases hc : pyContains d2 k with
  | true =>
    have := (pyContains_iff_mem_keys d2 k).mp hc
    exact (pyContains_iff_mem_keys d1 k).mpr (h ▸ this)
  | false =>
    cases hc1 : pyContains d1 k with
    | false => rfl
    | true =>
      have := (pyContains_iff_mem_keys d1 k).mp hc1
      rw [h] at this
      rw [(pyContains_iff_mem_keys d2 k).mpr this] at hc
      exact hc

/-- The initial statistics table gives every token the single field
`annotated`. -/
theorem annCounterInit_keys (xs : List Str) :
    KeysEq (annCounterInit xs) [str "annotated"] := by
  intro e he
  rcases List.mem_map.mp he with ⟨kv, -, rfl⟩
  rfl

/-- The whole-corpus pass extends every token's fields the same way. -/
theorem globalPass_keys (P : Primitives) (whole : Str) (soi : List Str) :
    ∀ (l l' : AnnCounter) (ks : List Str) (s s' : PollSt),
      KeysEq l ks →
      globalPassM P whole soi l s = (.ok l', s') →
      KeysEq l' (insKey (insKey ks (str "not annotated"))
        (str "not_annotated_interest"))
  | [], l', ks, s, s', hk, hrun => by
    rcases pure_ok_elim hrun with ⟨h1, -⟩
    intro e he
    rw [h1] at he
    simp at he
  | (t, d) :: rest, l', ks, s, s', hk, hrun => by
    unfold globalPassM at hrun
    rcases bind_ok_elim hrun with ⟨annV, s1, hann, h2⟩
    rcases bind_ok_elim h2 with ⟨u, s2, hpoll, h3⟩
    rcases bind_ok_elim h3 with ⟨rest', s3, hrest, h4⟩
    rcases pure_ok_elim h4 with ⟨h5, -⟩
    intro e he
    rw [h5] at he
    rcases List.mem_cons.mp he with rfl | he'
    · show keysOf (pyInsert (pyInsert d _ _) _ _) = _
      rw [keysOf_pyInsert, keysOf_pyInsert, hk (t, d) (by simp)]
    · exact globalPass_keys P whole soi rest rest' ks _ _
        (fun e' he'' => hk e' (List.mem_cons_of_mem _ he'')) hrest e he'

/-- Key-list effect of the conditional zero-initialization. -/
theorem keysOf_condInsert {α : Type} (d : PyDict α) (k : Str) (v : α) :
    keysOf (if pyContains d k then d else pyInsert d k v) =
      insKey (keysOf d) k := by
  by_cases hc : pyContains d k = true
  · rw [if_pos hc, insKey_of_mem _ _ ((pyContains_iff_mem_keys d k).mp hc)]
  · rw [if_neg hc, keysOf_pyInsert]

/-- The per-speaker token loop extends every token's fields the same way. -/
theorem perSpeakerTokens_keys (P : Primitives) (spCorpus sp : Str)
    (soi : List Str) :
    ∀ (l l' : AnnCounter) (ks : List Str) (s s' : PollSt),
      KeysEq l ks →
      perSpeakerTokensM P spCorpus sp soi l s = (.ok l', s') →
      KeysEq l' (insKey (insKey ks (sp ++ str " not annotated"))
        (sp ++ str " annotated"))
  | [], l', ks, s, s', hk, hrun => by
    rcases pure_ok_elim hrun with ⟨h1, -⟩
    intro e he
    rw [h1] at he
    simp at he
  | (t, d) :: rest, l', ks, s, s', hk, hrun => by
    unfold perSpeakerTokensM at hrun
    rcases bind_ok_elim hrun with ⟨u, s1, hpoll, h2⟩
    rcases bind_ok_elim h2 with ⟨rest', s2, hrest, h3⟩
    rcases pure_ok_elim h3 with ⟨h4, -⟩
    have hkd : keysOf d = ks := hk (t, d) (by simp)
    intro e he
    rw [h4] at he
    rcases List.mem_cons.mp he with rfl | he'
    · show keysOf (pyInsert (pyInsert _ _ _) _ _) = _
      rw [keysOf_pyInsert, keysOf_pyInsert, keysOf_condInsert,
        keysOf_condInsert, hkd]
      rw [insKey_of_mem (insKey (insKey ks (sp ++ str " not annotated"))
            (sp ++ str " annotated")) (sp ++ str " not annotated")
          (mem_insKey_of _ _ _ (mem_insKey_self _ _))]
      rw [insKey_of_mem (insKey (insKey ks (sp ++ str " not annotated"))
            (sp ++ str " annotated")) (sp ++ str " annotated")
          (mem_insKey_self _ _)]
    · exact perSpeakerTokens_keys P spCorpus sp soi rest rest' ks _ _
        (fun e' he'' => hk e' (List.mem_cons_of_mem _ he'')) hrest e he'

/-- The per-speaker pass keeps the per-token key lists equal to each
other. -/
theorem perSpeakerPass_keys (P : Primitives) (corpus : List Str)
    (soi : List Str) :
    ∀ (sps : List Str) (l l' : AnnCounter) (ks : List Str) (s s' : PollSt),
      KeysEq l ks →
      perSpeakerPassM P corpus soi sps l s = (.ok l', s') →
      ∃ ks', KeysEq l' ks'
  | [], l, l', ks, s, s', hk, hrun => by
    rcases pure_ok_elim hrun with ⟨h1, -⟩
    exact ⟨ks, by rw [h1]; exact hk⟩
  | sp :: sps, l, l', ks, s, s', hk, hrun => by
    unfold perSpeakerPassM at hrun
    rcases bind_ok_elim hrun with ⟨c', s1, htok, h2⟩
    have hk1 := perSpeakerTokens_keys P _ sp soi l c' ks _ _ hk htok
    exact perSpeakerPass_keys P corpus soi sps c' l' _ _ _ hk1 h2

/-- The augment speaker loop's key effect is determined by the input
keys. -/
theorem augmentSpeakers_keys :
    ∀ (sps : List Str) (d d' : PyDict Int) (s s' : PollSt),
      augmentSpeakersM sps d s = (.ok d', s') →
      keysOf d' = augSpF sps (keysOf d)
  | [], d, d', s, s', hrun => by
    rcases pure_ok_elim hrun with ⟨h1, -⟩
    rw [h1]
    rfl
  | sp :: sps, d, d', s, s', hrun => by
    unfold augmentSpeakersM at hrun
    rcases bind_ok_elim hrun with ⟨u, s1, hpoll, h2⟩
    rw [augmentSpeakers_keys sps _ d' _ _ h2]
    show augSpF sps (keysOf (pyInsert (pyInsert d _ _) _ _)) = _
    rw [keysOf_pyInsert, keysOf_pyInsert]
    rfl

/-- The augment speaker loop leaves unrelated fields untouched. -/
theorem augmentSpeakers_get :
    ∀ (sps : List Str) (d d' : PyDict Int) (s s' : PollSt) (k : Str),
      augmentSpeakersM sps d s = (.ok d', s') →
      (∀ sp ∈ sps, ¬ sp ++ str " annotated" = k ∧
        ¬ sp ++ str " not annotated" = k) →
      pyGet? d' k = pyGet? d k
  | [], d, d', s, s', k, hrun, _ => by
    rcases pure_ok_elim hrun with ⟨h1, -⟩
    rw [h1]
  | sp :: sps, d, d', s, s', k, hrun, hne => by
    unfold augmentSpeakersM at hrun
    rcases bind_ok_elim hrun with ⟨u, s1, hpoll, h2⟩
    have h3 := augmentSpeakers_get sps _ d' _ _ k h2
      (fun sp' hsp' => hne sp' (List.mem_cons_of_mem _ hsp'))
    rw [h3, pyGet?_pyInsert, pyGet?_pyInsert,
      if_neg (hne sp (by simp)).2, if_neg (hne sp (by simp)).1]

/-- Per-speaker column names never collide with the three global columns,
except through a speaker literally named `not`. -/
theorem spk_keys_ne (sp : Str) (hsp : ¬ sp = str "not") (k : Str)
    (hk : k = str "annotated" ∨ k = str "not annotated" ∨ k = str "total") :
    ¬ sp ++ str " annotated" = k ∧ ¬ sp ++ str " not annotated" = k := by
  have h10 : (str " annotated").length = 10 := rfl
  have h14 : (str " not annotated").length = 14 := rfl
  rcases hk with rfl | rfl | rfl
  · constructor
    · intro h
      have hl := congrArg List.length h
      rw [List.length_append, h10] at hl
      have h9 : (str "annotated").length = 9 := rfl
      rw [h9] at hl
      omega
    · intro h
      have hl := congrArg List.length h
      rw [List.length_append, h14] at hl
      have h9 : (str "annotated").length = 9 := rfl
      rw [h9] at hl
      omega
  · constructor
    · intro h
      have hsplit : str "not annotated" = str "not" ++ str " annotated" := rfl
      rw [hsplit] at h
      have hlen : sp.length = (str "not").length := by
        have hl := congrArg List.length h
        rw [List.length_append, List.length_append, h10] at hl
        omega
      exact hsp (List.append_inj h hlen).1
    · intro h
      have hl := congrArg List.length h
      rw [List.length_append, h14] at hl
      have h13 : (str "not annotated").length = 13 := rfl
      rw [h13] at hl
      omega
  · constructor
    · intro h
      have hl := congrArg List.length h
      rw [List.length_append, h10] at hl
      have h5 : (str "total").length = 5 := rfl
      rw [h5] at hl
      omega
    · intro h
      have hl := congrArg List.length h
      rw [List.length_append, h14] at hl
      have h5 : (str "total").length = 5 := rfl
      rw [h5] at hl
      omega

/-- Augment-stage invariant: key lists stay equal across tokens, and every
token's `total` field equals `annotated + not annotated`, provided no
speaker of interest is named `not`. -/
theorem augmentStage_total (soi : List Str)
    (hno : ∀ sp ∈ soi, ¬ sp = str "not") :
    ∀ (l l' : AnnCounter) (ks : List Str) (s s' : PollSt),
      KeysEq l ks →
      augmentStageM soi l s = (.ok l', s') →
      KeysEq l' (augKeysF soi ks) ∧
      ∀ e ∈ l', ∃ a na : Int,
        pyGet? e.2 (str "annotated") = some a ∧
        pyGet? e.2 (str "not annotated") = some na ∧
        pyGet? e.2 (str "total") = some (a + na)
  | [], l', ks, s, s', hk, hrun => by
    rcases pure_ok_elim hrun with ⟨h1, -⟩
    constructor
    · intro e he
      rw [h1] at he
      simp at he
    · intro e he
      rw [h1] at he
      simp at he
  | (t, d) :: rest, l', ks, s, s', hk, hrun => by
    unfold augmentStageM at hrun
    rcases bind_ok_elim hrun with ⟨a, s1, hga, h2⟩
    rcases bind_ok_elim h2 with ⟨na, s2, hgna, h3⟩
    rcases bind_ok_elim h3 with ⟨d2, s3, hsp, h4⟩
    rcases bind_ok_elim h4 with ⟨rest', s4, hrest, h5⟩
    rcases pure_ok_elim h5 with ⟨h6, -⟩
    rcases liftO_ok_elim hga with ⟨hgaSome, -⟩
    rcases liftO_ok_elim hgna with ⟨hgnaSome, -⟩
    have hkd : keysOf d = ks := hk (t, d) (by simp)
    have hIH := augmentStage_total soi hno rest rest' ks _ _
      (fun e he => hk e (List.mem_cons_of_mem _ he)) hrest
    have hd2get : ∀ k : Str,
        (k = str "annotated" ∨ k = str "not annotated" ∨ k = str "total") →
        pyGet? d2 k = pyGet? (pyInsert d (str "total") (a + na)) k := by
      intro k hkcase
      exact augmentSpeakers_get soi _ d2 _ _ k hsp
        (fun sp hsp' => spk_keys_ne sp (hno sp hsp') k hkcase)
    constructor
    · intro e he
      rw [h6] at he
      rcases List.mem_cons.mp he with rfl | he'
      · show keysOf d2 = _
        rw [augmentSpeakers_keys soi _ d2 _ _ hsp, keysOf_pyInsert, hkd]
        rfl
      · exact hIH.1 e he'
    · intro e he
      rw [h6] at he
      rcases List.mem_cons.mp he with rfl | he'
      · refine ⟨a, na, ?_, ?_, ?_⟩
        · show pyGet? d2 (str "annotated") = some a
          rw [hd2get (str "annotated") (Or.inl rfl), pyGet?_pyInsert,
            if_neg (by decide), hgaSome]
        · show pyGet? d2 (str "not annotated") = some na
          rw [hd2get (str "not annotated") (Or.inr (Or.inl rfl)),
            pyGet?_pyInsert, if_neg (by decide), hgnaSome]
        · show pyGet? d2 (str "total") = some (a + na)
          rw [hd2get (str "total") (Or.inr (Or.inr rfl)), pyGet?_pyInsert,
            if_pos rfl]
      · exact hIH.2 e he'

/-- Looking a field up through the rendered row agrees with the dict
lookup. -/
theorem pyGet?_render (name : Str) :
    ∀ d : PyDict Int,
      (firstIdx (keysOf d) name).bind
          (nth? (d.map (fun p => Cell.n p.2))) =
        (pyGet? d name).map Cell.n
  | [] => rfl
  | (k, v) :: t => by
    by_cases hk : k = name
    · simp [keysOf_cons, firstIdx, hk, pyGet?, nth?]
    · have IH := pyGet?_render name t
      simp only [keysOf_cons, firstIdx, if_neg hk, List.map_cons]
      have hpg : pyGet? ((k, v) :: t) name = pyGet? t name := by
        simp [pyGet?, hk]
      rw [hpg]
      cases hfi : firstIdx (keysOf t) name with
      | none =>
        have hfi2 : firstIdx (List.map (fun x => x.1) t) name = none := hfi
        rw [hfi] at IH
        rw [hfi2]
        simp only [Option.map_none', Option.none_bind] at IH ⊢
        exact IH
      | some i =>
        have hfi2 : firstIdx (List.map (fun x => x.1) t) name = some i := hfi
        rw [hfi] at IH
        rw [hfi2]
        simp only [Option.map_some', Option.some_bind] at IH ⊢
        rw [← IH]
        rfl

/-- Statistics-table cell lookup through the rendered header and row. -/
theorem lookupCell_render (t : Str) (d : PyDict Int) (ks : List Str)
    (name : Str) (hks : keysOf d = ks) (hname : ¬ str "token" = name) :
    lookupCell (str "token" :: ks)
        (Cell.s t :: d.map (fun p => Cell.n p.2)) name =
      (pyGet? d name).map Cell.n := by
  unfold lookupCell
  rw [← hks]
  show (firstIdx (str "token" :: keysOf d) name).bind _ = _
  simp only [firstIdx, if_neg hname]
  rw [← pyGet?_render name d]
  cases firstIdx (keysOf d) name <;> simp [nth?]

/-- C2 amended: for every completed run in which no stripped speaker of
interest is named `not`, every row of the returned statistics table has
`total = annotated + not annotated`.  The proviso is forced: a speaker
named `not` makes the per-speaker column `not annotated` collide with the
global column of the same name, which the augment loop then zeroes after
computing `total`. -/
theorem c2_total_eq_sum_amended (P : Primitives) (inp : GenInputs)
    (flag : Nat → Bool) (out : GenOutput)
    (hno : str "not" ∉ inp.speakersVariables.map (fun kv => stripWs kv.1))
    (hrun : (runGen P inp flag).1 = MRes.ok out) :
    ∀ row ∈ out.annotationInfo.rows, ∃ a na : Int,
      lookupCell out.annotationInfo.header row (str "annotated") =
        some (Cell.n a) ∧
      lookupCell out.annotationInfo.header row (str "not annotated") =
        some (Cell.n na) ∧
      lookupCell out.annotationInfo.header row (str "total") =
        some (Cell.n (a + na)) := by
  have hrun' : generateDatasetM P inp ⟨flag, 0, []⟩ =
      (.ok out, (generateDatasetM P inp ⟨flag, 0, []⟩).2) := by
    unfold runGen at hrun
    exact Prod.ext hrun rfl
  unfold generateDatasetM at hrun'
  rcases bind_ok_elim hrun' with ⟨u0, s0, hempty, h1⟩
  rcases bind_ok_elim h1 with ⟨u1, s1, hpoll, h2⟩
  rcases bind_ok_elim h2 with ⟨counter1, s2, hglobal, h3⟩
  rcases bind_ok_elim h3 with ⟨annSum, s3, hann, h4⟩
  rcases bind_ok_elim h4 with ⟨naSum, s4, hna, h5⟩
  rcases bind_ok_elim h5 with ⟨naiSum, s5, hnai, h6⟩
  rcases bind_ok_elim h6 with ⟨u2, s6, hagg, h7⟩
  rcases bind_ok_elim h7 with ⟨naLog, s7, hpf, h8⟩
  rcases bind_ok_elim h8 with ⟨counter2, s8, hps, h9⟩
  rcases bind_ok_elim h9 with ⟨counter3, s9, haug, h10⟩
  rcases bind_ok_elim h10 with ⟨rowsUnk, s10, hmain, h11⟩
  rcases bind_ok_elim h11 with ⟨annInfo, s11, hai, h12⟩
  rcases bind_ok_elim h12 with ⟨maRows, s12, hma, h13⟩
  rcases bind_ok_elim h13 with ⟨maHeader, s13, hmaH, h14⟩
  rcases bind_ok_elim h14 with ⟨binDF, s14, hbin, h15⟩
  rcases pure_ok_elim h15 with ⟨hout, -⟩
  rcases liftO_ok_elim hai with ⟨haiSome, -⟩
  have hk1 := globalPass_keys P _ _ _ counter1 _ _ _
    (annCounterInit_keys _) hglobal
  rcases perSpeakerPass_keys P _ _ _ counter1 counter2 _ _ _ hk1 hps
    with ⟨K2, hk2⟩
  have hnosp : ∀ sp ∈ (inp.speakersVariables.map (fun kv => stripWs kv.1)),
      ¬ sp = str "not" := by
    intro sp hsp h
    exact hno (h ▸ hsp)
  have haug2 := augmentStage_total _ hnosp counter2 counter3 K2 _ _ hk2 haug
  cases hc3 : counter3 with
  | nil =>
    rw [hc3] at haiSome
    exact absurd haiSome (by simp [annInfoTable])
  | cons e0 crest =>
    obtain ⟨t0, d0⟩ := e0
    rw [hc3] at haiSome
    have hai2 : annInfo = ⟨str "token" :: keysOf d0,
        ((t0, d0) :: crest).map
          (fun kv => Cell.s kv.1 :: kv.2.map (fun p => Cell.n p.2))⟩ := by
      have := haiSome.symm
      simpa [annInfoTable] using this
    intro row hrow
    rw [hout] at hrow
    simp only at hrow
    rw [hai2] at hrow
    simp only at hrow
    rcases List.mem_map.mp hrow with ⟨kv, hkv, rfl⟩
    have hkeykv : keysOf kv.2 = augKeysF _ K2 := haug2.1 kv (hc3 ▸ hkv)
    have hkeyd0 : keysOf d0 = augKeysF _ K2 :=
      haug2.1 (t0, d0) (hc3 ▸ (by simp : ((t0 : Str), d0) ∈ ((t0, d0) :: crest)))
    have hks : keysOf kv.2 = keysOf d0 := by rw [hkeykv, hkeyd0]
    obtain ⟨a, na, hga, hgna, hgt⟩ := haug2.2 kv (hc3 ▸ hkv)
    rw [hout]
    simp only
    rw [hai2]
    simp only
    refine ⟨a, na, ?_, ?_, ?_⟩
    · rw [lookupCell_render kv.1 kv.2 (keysOf d0) (str "annotated") hks
        (by decide), hga]
      rfl
    · rw [lookupCell_render kv.1 kv.2 (keysOf d0) (str "not annotated") hks
        (by decide), hgna]
      rfl
    · rw [lookupCell_render kv.1 kv.2 (keysOf d0) (str "total") hks
        (by decide), hgt]
      rfl

/-- Witness of `c2_total_eq_sum_amended` at the concrete `catsInputs`
run and its single statistics row. -/
theorem c2_total_eq_sum_witness :
    ∃ a na : Int,
      lookupCell c2OutW.annotationInfo.header c2RowW (str "annotated") =
        some (Cell.n a) ∧
      lookupCell c2OutW.annotationInfo.header c2RowW (str "not annotated") =
        some (Cell.n na) ∧
      lookupCell c2OutW.annotationInfo.header c2RowW (str "total") =
        some (Cell.n (a + na)) :=
  c2_total_eq_sum_amended specPrims catsInputs neverStop c2OutW
    (by decide) (by decide) c2RowW (by decide)

/-- C2 counterexample: with a speaker of interest literally named `not`,
the per-speaker pass overwrites the global `not annotated` column (the
key `'not' + ' annotated'` collides with it), `total` is computed from the
overwritten value, and the augment loop then zeroes the column, so the
returned table shows `annotated = 1`, `not annotated = 0`, `total = 2`. -/
theorem c2_total_counterexample :
    isOkRes (runGen specPrims notSpeakerInputs neverStop).1 = true ∧
    cellByName (runGen specPrims notSpeakerInputs neverStop).1 0
      (str "annotated") = some (Cell.n 1) ∧
    cellByName (runGen specPrims notSpeakerInputs neverStop).1 0
      (str "not annotated") = some (Cell.n 0) ∧
    cellByName (runGen specPrims notSpeakerInputs neverStop).1 0
      (str "total") = some (Cell.n 2) ∧
    (2 : Int) ≠ 1 + 0 :=
  ⟨by decide, by decide, by decide, by decide, by decide⟩
